import Mathlib

/-!
Shallow embedding of the wizard page-computation engine, proxy-value
machinery, session update logic and ticket assembler of the
slack-freshdesk-ticketing repository (`logic/wizard.py`, `logic/mapping.py`,
`logic/branching.py`, `logic/ticket.py`, `config.py`), together with proofs
about the embedded definitions.

External collaborators (the Freshdesk HTTP client of
`services/freshdesk.py`) are modelled as an explicit `Env` record of
deterministic responses; calls that can raise in Python (`fd_get`) are
modelled with `Except`, calls that swallow their errors and fall back
(`get_sections`, `fetch_field_detail`) are modelled total.
-/

deriving instance DecidableEq for Except

namespace SFT


/-- Raw entries of a Freshdesk id list: either a bare id or an object
carrying an `id` key (possibly missing), as consumed by
`logic/forms.py normalize_id_list`. -/
inductive RawId where
  | plain (n : Nat)
  | obj (n : Nat)
  | objNoId
  deriving DecidableEq, Repr

/-- `logic/forms.py normalize_id_list`: keep bare ids, extract `id` from
objects that carry one, drop objects that do not. -/
def normalize_id_list (raw : List RawId) : List Nat :=
  raw.foldr (fun r acc =>
    match r with
    | .plain n => n :: acc
    | .obj n => n :: acc
    | .objNoId => acc) []

/-- One item of a raw choice list; objects mirror the
`value`/`name`/`id`/`label` keys probed by `iter_choice_items`. -/
inductive ChoiceItem where
  | obj (value : Option String) (name : Option String) (id : Option String)
      (label : Option String)
  | prim (s : String)
  deriving DecidableEq, Repr

/-- The raw choice representations tolerated by `logic/mapping.py`:
a mapping of value to label, a list of items, or a bare scalar. -/
inductive Choices where
  | cdict (pairs : List (String × String))
  | clist (items : List ChoiceItem)
  | cprim (s : String)
  deriving DecidableEq, Repr

/-- `logic/mapping.py iter_choice_items`, normalising every raw choice shape
to ordered (value, label) pairs. -/
def iter_choice_items (c : Choices) : List (String × String) :=
  match c with
  | .cdict pairs => pairs
  | .clist items =>
      items.map (fun it =>
        match it with
        | .obj value name id label =>
            let v := value.getD (name.getD (id.getD ""))
            let l := label.getD (name.getD v)
            (v, l)
        | .prim s => (s, s))
  | .cprim s => [(s, s)]

/-- A dependent child entry of a `nested_field` container
(`dependent_fields` items). `level` defaults to 99 when the raw data
carries none, matching `sorted(dep, key=lambda d: d.get("level", 99))`. -/
structure DepField where
  id : Nat
  name : String
  level : Nat := 99
  deriving DecidableEq, Repr

/-- A Freshdesk ticket field as consumed by the wizard. The three optional
choice slots stand for the first truthy choice-bearing key found in
`customers_properties`, on the field itself, and in `portal_properties`
respectively (the probe order of `get_field_choices`). -/
structure Field where
  id : Nat
  name : Option String := none
  ftype : String
  required_for_customers : Bool := false
  required_for_agents : Bool := false
  displayed_to_customers : Bool := false
  customers_can_edit : Bool := true
  dependent_fields : List DepField := []
  section_mappings : List Nat := []
  cp_choices : Option Choices := none
  own_choices : Option Choices := none
  pp_choices : Option Choices := none
  deriving DecidableEq, Repr

/-- A conditional section as returned by the sections endpoint: id,
activator choice source and child field list. -/
structure Section where
  id : Nat
  choices : Option Choices := none
  fields : List RawId := []
  deriving DecidableEq, Repr

/-- The payload of `get_form_detail`: the form's ordered field ids and the
ids of its conditional sections. -/
structure FormDetail where
  name : Option String := none
  fields : List RawId := []
  sections : List Nat := []
  deriving DecidableEq, Repr

/-- The choice-bearing part of a `fetch_field_detail` response, used by
`ensure_choices` to backfill dropdown choices. -/
structure FieldDetail where
  cp_choices : Option Choices := none
  own_choices : Option Choices := none
  pp_choices : Option Choices := none
  deriving DecidableEq, Repr

/-- A form entry of the ticket-forms listing. -/
structure Form where
  id : Nat
  name : Option String := none
  fields : List RawId := []
  deriving DecidableEq, Repr

/-- Deterministic collaborator responses for one interaction cycle.
`formDetail` and `adminFields` model `fd_get` calls, which raise on HTTP
errors, hence `Except`; `sections` models `get_sections`, which swallows
all errors and falls back to scraped data or `[]`; `fieldDetail` models
`fetch_field_detail`, which returns `None` on failure. -/
structure Env where
  formDetail : Nat → Except String FormDetail
  sections : Nat → List Section
  fieldDetail : Nat → Option FieldDetail
  adminFields : Except String (List Field)

/-- `logic/mapping.py get_field_choices`: first truthy choice source among
customers properties, the field's own keys, and portal properties. -/
def get_field_choices (f : Field) : Option Choices :=
  f.cp_choices <|> f.own_choices <|> f.pp_choices

/-- The `DROPDOWN_LIKE` type family of `logic/mapping.py`. -/
def DROPDOWN_LIKE : List String := ["custom_dropdown", "dropdown", "default_ticket_type"]

/-- The `TEXT_LIKE` type family of `logic/mapping.py`. -/
def TEXT_LIKE : List String :=
  ["text", "email", "phone_number", "short_text", "long_text", "custom_text", "custom_url", "url"]

/-- The `NUMBER_LIKE` type family of `logic/mapping.py`. -/
def NUMBER_LIKE : List String := ["custom_number", "custom_decimal", "number", "decimal"]

/-- The `PARAGRAPH_LIKE` type family of `logic/mapping.py`. -/
def PARAGRAPH_LIKE : List String := ["custom_paragraph", "textarea"]

/-- The `DATE_LIKE` type family of `logic/mapping.py`. -/
def DATE_LIKE : List String := ["custom_date", "date"]

/-- The `CHECKBOX_LIKE` type family of `logic/mapping.py`. -/
def CHECKBOX_LIKE : List String := ["custom_checkbox", "checkbox", "boolean"]

/-- The `SKIP_ALWAYS` system field types of `logic/mapping.py`. -/
def SKIP_ALWAYS : List String :=
  ["default_requester", "default_source", "default_status", "default_priority",
   "default_group", "default_agent", "default_product", "default_company"]

/-- `logic/mapping.py ensure_choices`: for dropdown-like fields without
choices, backfill the choice slots from the field-detail endpoint; a failed
fetch leaves the field unchanged. -/
def ensure_choices (env : Env) (f : Field) : Field :=
  if f.ftype ∈ DROPDOWN_LIKE ∧ get_field_choices f = none then
    match env.fieldDetail f.id with
    | some d =>
        { f with
          cp_choices := d.cp_choices <|> f.cp_choices,
          own_choices := d.own_choices <|> f.own_choices,
          pp_choices := d.pp_choices <|> f.pp_choices }
    | none => f
  else f

/-- A rendered Slack block; only the `block_id` is retained, which is all
the embedded logic observes. -/
structure Block where
  block_id : Option String
  deriving DecidableEq, Repr

/-- The possible return shapes of `to_slack_block`: `None`, a single block
dict, or a list of blocks (nested containers). -/
inductive Blocks where
  | nothing
  | one (b : Block)
  | many (bs : List Block)
  deriving DecidableEq, Repr

/-- Stable insertion of a dependent child by `level` (equal levels keep
their original relative order, like Python's stable `sorted`). -/
def insertByLevel (d : DepField) : List DepField → List DepField
  | [] => [d]
  | e :: t => if d.level < e.level then d :: e :: t else e :: insertByLevel d t

/-- Stable sort of dependent children by `level`. -/
def sortByLevel : List DepField → List DepField
  | [] => []
  | d :: t => insertByLevel d (sortByLevel t)

/-- `logic/mapping.py to_slack_block`, reduced to the data the wizard
observes: whether the field renders, and the block ids it renders with.
For nested containers the dependent children are sorted by `level`
(missing levels default to 99 at `DepField` construction). -/
def to_slack_block (f : Field) : Blocks :=
  let required := f.required_for_customers
  if f.ftype ∈ SKIP_ALWAYS then .nothing
  else if ¬ f.displayed_to_customers ∧ ¬ required then .nothing
  else if ¬ f.customers_can_edit ∧ ¬ required then .nothing
  else if f.ftype = "default_subject" then .one ⟨some "subject"⟩
  else if f.ftype = "default_description" then .one ⟨some "description"⟩
  else if f.ftype ∈ TEXT_LIKE then .one ⟨f.name⟩
  else if f.ftype ∈ NUMBER_LIKE then .one ⟨f.name⟩
  else if f.ftype ∈ PARAGRAPH_LIKE then .one ⟨f.name⟩
  else if f.ftype ∈ DATE_LIKE then .one ⟨f.name⟩
  else if f.ftype ∈ CHECKBOX_LIKE then .one ⟨f.name⟩
  else if f.ftype ∈ DROPDOWN_LIKE then .one ⟨f.name⟩
  else if f.ftype = "nested_field" then
    .many ((sortByLevel f.dependent_fields).map (fun d => ⟨some d.name⟩))
  else .nothing

/-- `logic/mapping.py normalize_blocks`. -/
def normalize_blocks (m : Blocks) : List Block :=
  match m with
  | .nothing => []
  | .one b => [b]
  | .many bs => bs

/-- The payload of one Slack input fragment (`data` in `extract_input`),
keyed by its declared `type`. `selected_option` is doubly optional: the
outer level is the dict's presence/truthiness, the inner level the
presence of its `value` key. -/
structure InputData where
  dtype : Option String := none
  value : Option String := none
  selected_option : Option (Option String) := none
  selected_date : Option String := none
  selected_options : List String := []
  deriving DecidableEq, Repr

/-- One state entry (`values[block_id]` in a Slack view state): an
insertion-ordered mapping of action id to input payload. -/
def Entry := List (String × InputData)
  deriving DecidableEq, Repr

/-- A raw answer value: Python `str` or `bool`, the two types
`extract_input` can produce. -/
inductive Val where
  | vStr (s : String)
  | vBool (b : Bool)
  deriving DecidableEq, Repr

/-- Python `str()` applied to an extracted answer. -/
def pyStr (v : Val) : String :=
  match v with
  | .vStr s => s
  | .vBool b => if b then "True" else "False"

/-- Python truthiness of an extracted answer. -/
def truthy (v : Val) : Bool :=
  match v with
  | .vStr s => s ≠ ""
  | .vBool b => b

/-- `logic/mapping.py extract_input`: dispatch on the first fragment's
declared input kind. -/
def extract_input (entry : Entry) : Option Val :=
  match entry with
  | [] => none
  | (_, data) :: _ =>
      match data.dtype with
      | some "plain_text_input" => data.value.map .vStr
      | some "static_select" => (data.selected_option.join).map .vStr
      | some "datepicker" => data.selected_date.map .vStr
      | some "checkboxes" => some (.vBool (¬ data.selected_options.isEmpty))
      | _ => none

/-- The wizard's answer state: an insertion-ordered mapping of field name
(block id) to state entry, as held in `WIZARD_SESSIONS[token]["values"]`. -/
def StateVals := List (String × Entry)
  deriving DecidableEq, Repr

/-- Keys of an answer state. -/
def svKeys (s : StateVals) : List String := s.map Prod.fst

/-- First-match lookup in an answer state. -/
def svLookup (s : StateVals) (k : String) : Option Entry :=
  match s.find? (fun kv => kv.1 = k) with
  | some kv => some kv.2
  | none => none

/-- `state_values.get(field.get("name")) or {}`: a missing name, a missing
key, or a falsy stored entry all yield the empty entry. -/
def lookup_entry (s : StateVals) (name : Option String) : Entry :=
  match name with
  | none => []
  | some n => (svLookup s n).getD []

/-! ### SHA-1 (`hashlib.sha1(...).hexdigest()` over the UTF-8 encoding) -/

/-- UTF-8 encoding of a code point, as a big-endian byte list. -/
def utf8EncodeChar (c : Char) : List Nat :=
  let n := c.toNat
  if n < 128 then [n]
  else if n < 2048 then [192 + n / 64, 128 + n % 64]
  else if n < 65536 then [224 + n / 4096, 128 + (n / 64) % 64, 128 + n % 64]
  else [240 + n / 262144, 128 + (n / 4096) % 64, 128 + (n / 64) % 64, 128 + n % 64]

/-- UTF-8 encoding of a string (`s.encode("utf-8")`). -/
def utf8Encode (s : String) : List Nat :=
  s.data.flatMap utf8EncodeChar

/-- Left rotation of a 32-bit word represented as a `Nat` below `2^32`. -/
def rotl32 (k x : Nat) : Nat :=
  ((x <<< k) ||| (x >>> (32 - k))) % 4294967296

/-- SHA-1 message padding: append `0x80`, zero bytes and the 64-bit
big-endian bit length, to a multiple of 64 bytes. -/
def sha1Pad (msg : List Nat) : List Nat :=
  let len := msg.length
  let zeros := (119 - len % 64) % 64
  let bitLen := 8 * len
  msg ++ [128] ++ List.replicate zeros 0 ++
    [(bitLen >>> 56) % 256, (bitLen >>> 48) % 256, (bitLen >>> 40) % 256,
     (bitLen >>> 32) % 256, (bitLen >>> 24) % 256, (bitLen >>> 16) % 256,
     (bitLen >>> 8) % 256, bitLen % 256]

/-- Pack four bytes into one big-endian 32-bit word. -/
def sha1Words : List Nat → List Nat
  | b0 :: b1 :: b2 :: b3 :: rest =>
      (b0 * 16777216 + b1 * 65536 + b2 * 256 + b3) :: sha1Words rest
  | _ => []

/-- Extend the 16 schedule words by `k` more, keeping the list reversed
(most recent first). -/
def sha1Extend (rws : List Nat) : Nat → List Nat
  | 0 => rws
  | k + 1 =>
      let w := rotl32 1 ((((rws.getD 2 0) ^^^ (rws.getD 7 0)) ^^^ (rws.getD 13 0)) ^^^ (rws.getD 15 0))
      sha1Extend (w :: rws) k

/-- The 80 compression rounds over one block's schedule. -/
def sha1Rounds : List Nat → Nat → (Nat × Nat × Nat × Nat × Nat) → (Nat × Nat × Nat × Nat × Nat)
  | [], _, st => st
  | w :: rest, i, (a, b, c, d, e) =>
      let f :=
        if i < 20 then (b &&& c) ||| (((2 ^ 32 - 1) - b) &&& d)
        else if i < 40 then (b ^^^ c) ^^^ d
        else if i < 60 then ((b &&& c) ||| (b &&& d)) ||| (c &&& d)
        else (b ^^^ c) ^^^ d
      let k :=
        if i < 20 then 1518500249
        else if i < 40 then 1859775393
        else if i < 60 then 2400959708
        else 3395469782
      let temp := (rotl32 5 a + f + e + k + w) % 4294967296
      sha1Rounds rest (i + 1) (temp, a, rotl32 30 b, c, d)

/-- Process the padded message 64 bytes at a time; the first argument is
the number of 64-byte blocks remaining. -/
def sha1Chunks : Nat → List Nat → (Nat × Nat × Nat × Nat × Nat) → (Nat × Nat × Nat × Nat × Nat)
  | 0, _, st => st
  | n + 1, bytes, (h0, h1, h2, h3, h4) =>
      let block := bytes.take 64
      let w16 := sha1Words block
      let ws := (sha1Extend w16.reverse 64).reverse
      let (a, b, c, d, e) := sha1Rounds ws 0 (h0, h1, h2, h3, h4)
      sha1Chunks n (bytes.drop 64)
        ((h0 + a) % 4294967296, (h1 + b) % 4294967296, (h2 + c) % 4294967296,
         (h3 + d) % 4294967296, (h4 + e) % 4294967296)

/-- One lowercase hex digit. -/
def hexChar (n : Nat) : Char :=
  if n < 10 then Char.ofNat (48 + n) else Char.ofNat (87 + n)

/-- A 32-bit word as 8 lowercase hex characters. -/
def toHex8 (x : Nat) : String :=
  String.mk
    [hexChar ((x >>> 28) % 16), hexChar ((x >>> 24) % 16), hexChar ((x >>> 20) % 16),
     hexChar ((x >>> 16) % 16), hexChar ((x >>> 12) % 16), hexChar ((x >>> 8) % 16),
     hexChar ((x >>> 4) % 16), hexChar (x % 16)]

/-- `hashlib.sha1(bytes).hexdigest()`. The padded message has a length
divisible by 64, so dividing by 64 gives the exact block count. -/
def sha1Hex (msg : List Nat) : String :=
  let padded := sha1Pad msg
  let (h0, h1, h2, h3, h4) :=
    sha1Chunks (padded.length / 64) padded
      (1732584193, 4023233417, 2562383102, 271733878, 3285377520)
  toHex8 h0 ++ toHex8 h1 ++ toHex8 h2 ++ toHex8 h3 ++ toHex8 h4

/-- Python `str.startswith`, over the character lists of the strings
(kept structural so that concrete runs reduce in the kernel). -/
def str_startsWith (s pre : String) : Bool :=
  pre.data.isPrefixOf s.data

/-- Python slicing `s[n:]` by characters. -/
def str_drop (s : String) (n : Nat) : String :=
  String.mk (s.data.drop n)

/-- `logic/mapping.py proxy_value_if_needed`: values of more than 150
characters (Python `len`) are replaced by a tagged SHA-1 digest of their
UTF-8 encoding. -/
def proxy_value_if_needed (raw : String) : String :=
  if raw.length ≤ 150 then raw
  else "hash:" ++ sha1Hex (utf8Encode raw)

/-- `logic/ticket.py resolve_proxy_value`: reverse a tagged digest by
re-scanning the named field's current choice list; untagged values pass
through, unresolvable tags are returned unchanged. The admin field fetch
(`fd_get`) can raise, hence `Except`. -/
def resolve_proxy_value (env : Env) (field_name : Option String) (proxy_or_value : String) :
    Except String String :=
  let val := proxy_or_value
  if ¬ str_startsWith val "hash:" then .ok val
  else
    match env.adminFields with
    | .error e => .error e
    | .ok fd_fields =>
        match fd_fields.find? (fun f => f.name = field_name) with
        | none => .ok val
        | some target =>
            let target := ensure_choices env target
            let items :=
              match get_field_choices target with
              | some c => iter_choice_items c
              | none => []
            let want := str_drop val 5
            match items.find? (fun p => sha1Hex (utf8Encode p.1) = want) with
            | some p => .ok p.1
            | none => .ok val

/-- `logic/branching.py activator_values`: the stringified activator
values of a conditional section. -/
def activator_values (sec : Section) : List String :=
  match sec.choices with
  | some c => (iter_choice_items c).map Prod.fst
  | none => []

/-- `logic/branching.py selected_value_for`: extract the current answer of
a field from the state, treating falsy answers as absent and resolving
proxy tags (errors from the resolver are swallowed, returning the tag). -/
def selected_value_for (env : Env) (f : Field) (state : StateVals) : Option Val :=
  let entry := lookup_entry state f.name
  match extract_input entry with
  | none => none
  | some sel =>
      if truthy sel then
        match sel with
        | .vStr s =>
            if str_startsWith s "hash:" then
              match resolve_proxy_value env f.name s with
              | .ok r => some (.vStr r)
              | .error _ => some (.vStr s)
            else some (.vStr s)
        | .vBool b => some (.vBool b)
      else none

/-! ### Page computation (`logic/wizard.py compute_pages`) -/

/-- One wizard page: a single field's question, the fixed
subject/description step (`"core"`), or the terminal submission step
(`None`). -/
inductive PageItem where
  | field (fid : Nat)
  | core
  | terminal
  deriving DecidableEq, Repr

/-- `by_id = {f["id"]: f for f in all_fields}`: last entry wins on
duplicate ids, as in a Python dict comprehension. -/
def by_id (all_fields : List Field) (fid : Nat) : Option Field :=
  all_fields.foldl (fun acc f => if f.id = fid then some f else acc) none

/-- Shared read-only data of one traversal: the environment, the field
arena and the form's section-id set. -/
structure Ctx where
  env : Env
  all_fields : List Field
  form_section_ids : List Nat

/-- Mutable traversal state: the pages accumulated so far and the visited
set. -/
structure Trav where
  pages : List Nat
  visited : List Nat
  deriving DecidableEq, Repr

/-- The child ids contributed by the active conditional sections of a
field for a given stringified answer: the `for sec ... for child_id ...`
loops of `add_field_and_children`, flattened in order into one list (the
early exit on a blocked child is uniform across both loops, so the
flattening preserves the traversal semantics exactly). -/
def active_children (ctx : Ctx) (fid : Nat) (sel : String) : List Nat :=
  ((ctx.env.sections fid).filter
      (fun sec => decide (sec.id ∈ ctx.form_section_ids) && decide (sel ∈ activator_values sec))).flatMap
    (fun sec => normalize_id_list sec.fields)

/-- The child loop of `add_field_and_children`: expand each child in
order with the supplied expansion function, propagating "blocked" upward
immediately. -/
def go_children (addF : Nat → Trav → Option (Trav × Bool)) :
    List Nat → Trav → Option (Trav × Bool)
  | [], st => some (st, true)
  | k :: rest, st =>
      match addF k st with
      | none => none
      | some (st2, true) => go_children addF rest st2
      | some (st2, false) => some (st2, false)

/-- `add_field_and_children` of `compute_pages`: append the field's page
and descend into active conditional children, reporting `false` when
blocked on an unanswered field. The `Nat` is recursion fuel (the Python
recursion is bounded by the finite visited set); exhaustion yields
`none`. -/
def add_field_and_children (ctx : Ctx) (state : StateVals) :
    Nat → Nat → Trav → Option (Trav × Bool)
  | 0, _, _ => none
  | fuel + 1, fid, st =>
      if fid ∈ st.visited then some (st, true)
      else
        let st := { st with visited := fid :: st.visited }
        match by_id ctx.all_fields fid with
        | none => some (st, true)
        | some f =>
            if f.ftype = "default_subject" ∨ f.ftype = "default_description" then some (st, true)
            else if normalize_blocks (to_slack_block (ensure_choices ctx.env f)) = [] then
              some (st, true)
            else
              let st := { st with pages := st.pages ++ [fid] }
              if f.ftype ≠ "nested_field" then
                match selected_value_for ctx.env f state with
                | none => some (st, false)
                | some sel =>
                    go_children (fun k st' => add_field_and_children ctx state fuel k st')
                      (active_children ctx fid (pyStr sel)) st
              else some (st, true)

/-- The top-level scan of `compute_pages`: `for fid in id_order`, stopping
at the first blocked field. -/
def run_order (ctx : Ctx) (state : StateVals) (fuel : Nat) :
    List Nat → Trav → Option Trav
  | [], st => some st
  | fid :: rest, st =>
      match add_field_and_children ctx state fuel fid st with
      | none => none
      | some (st2, true) => run_order ctx state fuel rest st2
      | some (st2, false) => some st2

/-- `_section_orphan` of `compute_pages`: a field with section mappings
none of which reference a section of this form. -/
def section_orphan (all_fields : List Field) (form_section_ids : List Nat) (fid : Nat) : Bool :=
  let mappings := ((by_id all_fields fid).map Field.section_mappings).getD []
  if mappings.isEmpty then false
  else mappings.all (fun sid => decide (sid ∉ form_section_ids))

/-- `_skip_unlinked_required` of `compute_pages`: a customer-required,
agent-optional field that neither is referenced as a dependent nor
declares dependents of its own. -/
def skip_unlinked_required (all_fields : List Field) (dependent_ids : List Nat) (fid : Nat) : Bool :=
  match by_id all_fields fid with
  | none => false
  | some f =>
      if fid ∈ dependent_ids then false
      else if ¬ f.dependent_fields.isEmpty then false
      else f.required_for_customers && !f.required_for_agents

/-- The raw field-id order before filtering:
`form_detail.get("fields") or form.get("fields") or []`, normalised. -/
def initial_id_order (fd : FormDetail) (form : Form) : List Nat :=
  normalize_id_list (if fd.fields.isEmpty then form.fields else fd.fields)

/-- The ids collected as conditional children of the form's sections,
scanning the sections of every field in the initial top-level order. -/
def conditional_children_of (env : Env) (fd : FormDetail) (form : Form) : List Nat :=
  (initial_id_order fd form).flatMap (fun fid =>
    (env.sections fid).flatMap (fun sec =>
      if sec.id ∈ fd.sections then normalize_id_list sec.fields else []))

/-- The ids referenced as dependents anywhere: `dependent_fields` entries
of every field, plus the conditional children. -/
def dependent_ids_of (env : Env) (fd : FormDetail) (form : Form) (all_fields : List Field) :
    List Nat :=
  all_fields.flatMap (fun f => f.dependent_fields.map DepField.id) ++
    conditional_children_of env fd form

/-- The filtered top-level scan order of `compute_pages`. -/
def wizard_id_order (env : Env) (fd : FormDetail) (form : Form) (all_fields : List Field) :
    List Nat :=
  let cc := conditional_children_of env fd form
  let deps := dependent_ids_of env fd form all_fields
  ((initial_id_order fd form).filter
      (fun fid => decide (fid ∉ cc) && !section_orphan all_fields fd.sections fid)).filter
    (fun fid => !skip_unlinked_required all_fields deps fid)

/-- The traversal fuel: one more than the number of fields, which is
always sufficient (each level of nesting of `add_field_and_children` past
the first visits a distinct field of the arena). -/
def wizard_fuel (all_fields : List Field) : Nat := all_fields.length + 1

/-- The depth-first traversal of `compute_pages`, given an already fetched
form detail. -/
def wizard_traversal (env : Env) (fd : FormDetail) (form : Form) (all_fields : List Field)
    (state : StateVals) : Option Trav :=
  run_order ⟨env, all_fields, fd.sections⟩ state (wizard_fuel all_fields)
    (wizard_id_order env fd form all_fields) ⟨[], []⟩

/-- The page list built from a completed traversal: the field pages in
traversal order, then the `Core` and `Terminal` markers. -/
def pages_of_traversal (tr : Option Trav) : List PageItem :=
  match tr with
  | some t => t.pages.map PageItem.field ++ [PageItem.core, PageItem.terminal]
  | none => [PageItem.core, PageItem.terminal]

/-- `logic/wizard.py compute_pages`. The form-detail fetch is the only
call in it that can raise. -/
def compute_pages (env : Env) (form : Form) (all_fields : List Field) (state_values : StateVals) :
    Except String (List PageItem) :=
  match env.formDetail form.id with
  | .error e => .error e
  | .ok fd => .ok (pages_of_traversal (wizard_traversal env fd form all_fields state_values))

/-- The field ids of the `FieldPage` entries of a page list. -/
def fieldPages (pages : List PageItem) : List Nat :=
  pages.filterMap (fun p => match p with | .field fid => some fid | _ => none)

/-! ### Wizard session update (`logic/wizard.py update_wizard`) -/

/-- One wizard session: target form id, current page index and accumulated
answers (`WIZARD_SESSIONS[token]`). -/
structure Session where
  ticket_form_id : Nat
  page : Nat
  values : StateVals
  deriving DecidableEq, Repr

/-- Python `{**old, **new}`: values of `new` win per key, the key order of
`old` is kept, keys new to `new` are appended in order. -/
def merge_values (old new : StateVals) : StateVals :=
  old.map (fun kv => (kv.1, (svLookup new kv.1).getD kv.2)) ++
    new.filter (fun kv => decide (svLookup old kv.1 = none))

/-- The `valid_names` set of `update_wizard`: the truthy names of the
fields behind the integer pages of a page list. -/
def page_field_names (all_fields : List Field) (pages : List PageItem) : List String :=
  pages.filterMap (fun p =>
    match p with
    | .field fid =>
        match by_id all_fields fid with
        | some f =>
            match f.name with
            | some n => if n ≠ "" then some n else none
            | none => none
        | none => none
    | _ => none)

/-- The prune step of `update_wizard`: drop answers whose key is not a
valid page field name. -/
def prune_values (valid_names : List String) (vals : StateVals) : StateVals :=
  vals.filter (fun kv => decide (kv.1 ∈ valid_names))

/-- The advance guard of `update_wizard` for `nav == "next"`: on an
integer page, the (first) field with that id must carry a non-null
answer; non-field pages and unknown ids advance unconditionally. -/
def allow_advance (env : Env) (fd_fields : List Field) (vals : StateVals)
    (item : PageItem) : Bool :=
  match item with
  | .field fid =>
      match fd_fields.find? (fun f => f.id = fid) with
      | some fobj => (selected_value_for env fobj vals).isSome
      | none => true
  | _ => true

/-- The page-index computation of `update_wizard`: clamp the stored index
into the freshly recomputed page list, then apply the navigation intent
(`next` gated by `allow_advance` on the current item, `prev` floored at
0 by natural subtraction). -/
def wizard_nav_page (env : Env) (fd_fields : List Field) (pruned : StateVals)
    (pages2 : List PageItem) (page0 : Nat) (nav : Option String) : Nat :=
  let page := min page0 (pages2.length - 1)
  let current := pages2.getD page PageItem.terminal
  match nav with
  | some nv =>
      if nv = "next" then
        if allow_advance env fd_fields pruned current then
          min (page + 1) (pages2.length - 1)
        else page
      else if nv = "prev" then page - 1
      else page
  | none => page

/-- The session transformation of one `update_wizard` call: merge the
incoming view state, compute pages, prune stale answers, recompute pages,
clamp the page index and apply the navigation intent. A raising page
computation is caught by the surrounding `try`, leaving the values merged
(respectively pruned) and the page index untouched. -/
def update_wizard_step (env : Env) (form : Form) (fd_fields : List Field) (sess : Session)
    (new_state : StateVals) (nav : Option String) : Session :=
  let merged := merge_values sess.values new_state
  match compute_pages env form fd_fields merged with
  | .error _ => { sess with values := merged }
  | .ok pages1 =>
      let valid := page_field_names fd_fields pages1
      let pruned := prune_values valid merged
      match compute_pages env form fd_fields pruned with
      | .error _ => { sess with values := pruned }
      | .ok pages2 =>
          { sess with
            values := pruned
            page := wizard_nav_page env fd_fields pruned pages2 sess.page nav }

/-! ### Ticket assembly (`logic/ticket.py modal_values_to_fd_ticket`) -/

/-- The static `FORM_NAME_TO_TYPE` table of `config.py`. -/
def FORM_NAME_TO_TYPE : List (String × String) :=
  [("it_equipment_&_facility_support_form", "IT Equipment Support Form"),
   ("IT Equipment & Facility Support Form", "IT Equipment Support Form"),
   ("system_access_request", "System Access Request"),
   ("System Access Request", "System Access Request"),
   ("it_application_assistance_(not_access_related)", "IT Application Assistance Request"),
   ("IT Application Assistance (Not Access Related)", "IT Application Assistance Request"),
   ("customer_notification_form", "IT Customer Notification Form"),
   ("Customer Notification Form", "IT Customer Notification Form"),
   ("security_incident", "Security Incident"),
   ("Security Incident", "Security Incident")]

/-- First-match lookup in a string table (`dict.get`). -/
def table_get (tbl : List (String × String)) (k : String) : Option String :=
  match tbl.find? (fun kv => kv.1 = k) with
  | some kv => some kv.2
  | none => none

/-- The configuration values `modal_values_to_fd_ticket` reads from the
process environment. -/
structure Config where
  freshdeskEmail : String
  itGroupId : String
  deriving DecidableEq, Repr

/-- The accumulator of the block loop of `modal_values_to_fd_ticket`. -/
structure TicketAcc where
  subject : Option Val := none
  description : Option Val := none
  type_field : Option Val := none
  custom_fields : List (String × Val) := []
  deriving DecidableEq, Repr

/-- Python dict assignment `d[k] = v`: update in place when the key
exists, append otherwise. -/
def dict_set (l : List (String × Val)) (k : String) (v : Val) : List (String × Val) :=
  if l.any (fun kv => kv.1 = k) then
    l.map (fun kv => if kv.1 = k then (kv.1, v) else kv)
  else l ++ [(k, v)]

/-- The block loop of `modal_values_to_fd_ticket`: route subject,
description and the type selector, collect everything else (non-null,
non-noop, proxies resolved) as custom fields. `resolve_proxy_value` is
not guarded here, so its errors propagate. -/
def ticket_loop (env : Env) : List (String × Entry) → TicketAcc → Except String TicketAcc
  | [], acc => .ok acc
  | (block_id, entry) :: rest, acc =>
      let val := extract_input entry
      if block_id = "subject" then ticket_loop env rest { acc with subject := val }
      else if block_id = "description" then ticket_loop env rest { acc with description := val }
      else if block_id = "type" ∨ block_id = "ticket_type" ∨ block_id = "default_ticket_type" then
        ticket_loop env rest { acc with type_field := val }
      else
        match val with
        | none => ticket_loop env rest acc
        | some v =>
            if v = .vStr "__noop__" then ticket_loop env rest acc
            else
              match v with
              | .vStr s =>
                  if str_startsWith s "hash:" then
                    match resolve_proxy_value env (some block_id) s with
                    | .error e => .error e
                    | .ok r =>
                        ticket_loop env rest
                          { acc with custom_fields := dict_set acc.custom_fields block_id (.vStr r) }
                  else
                    ticket_loop env rest
                      { acc with custom_fields := dict_set acc.custom_fields block_id (.vStr s) }
              | .vBool b =>
                  ticket_loop env rest
                    { acc with custom_fields := dict_set acc.custom_fields block_id (.vBool b) }

/-- Truthiness of an optional answer (`if not type_field`, `subject or`). -/
def opt_truthy (v : Option Val) : Bool :=
  match v with
  | some x => truthy x
  | none => false

/-- `x or default` on an optional answer, falling back to a fixed string. -/
def val_or_default (v : Option Val) (d : String) : Val :=
  match v with
  | some x => if truthy x then x else .vStr d
  | none => .vStr d

/-- The assembled Freshdesk ticket payload. -/
structure Ticket where
  subject : Val
  description : Val
  status : Nat
  priority : Nat
  email : String
  tags : List String
  group_id : Option Int := none
  ttype : Option Val := none
  custom_fields : List (String × Val) := []
  deriving DecidableEq, Repr

/-- `logic/ticket.py modal_values_to_fd_ticket`: fold the answers, infer
the ticket type from the chosen form when no truthy type selector was
answered (a failing form-detail fetch is caught and leaves the type as
it was), and attach defaults and static routing metadata. -/
def modal_values_to_fd_ticket (env : Env) (cfg : Config) (values : List (String × Entry))
    (ticket_form_id : Option Nat) (requester_email : Option String) : Except String Ticket :=
  match ticket_loop env values {} with
  | .error e => .error e
  | .ok acc =>
      let tfi_truthy : Bool := match ticket_form_id with | some n => n != 0 | none => false
      let type_field :=
        if !opt_truthy acc.type_field && tfi_truthy then
          match env.formDetail (ticket_form_id.getD 0) with
          | .error _ => acc.type_field
          | .ok form =>
              match form.name with
              | some nm => some (.vStr ((table_get FORM_NAME_TO_TYPE nm).getD nm))
              | none => none
        else acc.type_field
      let email :=
        match requester_email with
        | some e => if e ≠ "" then e else cfg.freshdeskEmail
        | none => cfg.freshdeskEmail
      .ok
        { subject := val_or_default acc.subject "New ticket",
          description := val_or_default acc.description "(no description)",
          status := 2,
          priority := 2,
          email := email,
          tags := ["slack", "it-ticket"],
          group_id := if cfg.itGroupId ≠ "" then cfg.itGroupId.toInt? else none,
          ttype := if opt_truthy type_field then type_field else none,
          custom_fields := acc.custom_fields }



theorem trav_invariants (ctx : Ctx) (state : StateVals) :
    ∀ fuel : Nat,
      (∀ fid st r, add_field_and_children ctx state fuel fid st = some r →
        st.pages <+: r.1.pages ∧ st.visited ⊆ r.1.visited ∧
        (∀ x ∈ r.1.pages, x ∈ st.pages ∨ ∃ f, by_id ctx.all_fields x = some f ∧
          f.ftype ≠ "default_subject" ∧ f.ftype ≠ "default_description" ∧
          normalize_blocks (to_slack_block (ensure_choices ctx.env f)) ≠ [])) ∧
      (∀ kids st r, go_children (fun k st' => add_field_and_children ctx state fuel k st') kids st = some r →
        st.pages <+: r.1.pages ∧ st.visited ⊆ r.1.visited ∧
        (∀ x ∈ r.1.pages, x ∈ st.pages ∨ ∃ f, by_id ctx.all_fields x = some f ∧
          f.ftype ≠ "default_subject" ∧ f.ftype ≠ "default_description" ∧
          normalize_blocks (to_slack_block (ensure_choices ctx.env f)) ≠ [])) := by
  intro fuel
  induction fuel with
  | zero =>
      constructor
      · intro fid st r h
        simp [add_field_and_children] at h
      · intro kids st r h
        cases kids with
        | nil =>
            rw [go_children] at h
            cases h
            exact ⟨List.prefix_refl _, fun x hx => hx, fun x hx => Or.inl hx⟩
        | cons k rest =>
            rw [go_children] at h
            simp [add_field_and_children] at h
  | succ n ih =>
      have hadd : ∀ fid st r, add_field_and_children ctx state (n+1) fid st = some r →
          st.pages <+: r.1.pages ∧ st.visited ⊆ r.1.visited ∧
          (∀ x ∈ r.1.pages, x ∈ st.pages ∨ ∃ f, by_id ctx.all_fields x = some f ∧
            f.ftype ≠ "default_subject" ∧ f.ftype ≠ "default_description" ∧
            normalize_blocks (to_slack_block (ensure_choices ctx.env f)) ≠ []) := by
        intro fid st r h
        rw [add_field_and_children] at h
        by_cases hv : fid ∈ st.visited
        · rw [if_pos hv] at h
          cases h
          exact ⟨List.prefix_refl _, fun x hx => hx, fun x hx => Or.inl hx⟩
        · rw [if_neg hv] at h
          dsimp only at h
          cases hb : by_id ctx.all_fields fid with
          | none =>
              rw [hb] at h
              dsimp only at h
              cases h
              exact ⟨List.prefix_refl _, fun x hx => List.mem_cons_of_mem _ hx, fun x hx => Or.inl hx⟩
          | some f =>
              rw [hb] at h
              dsimp only at h
              by_cases hcore : f.ftype = "default_subject" ∨ f.ftype = "default_description"
              · rw [if_pos hcore] at h
                cases h
                exact ⟨List.prefix_refl _, fun x hx => List.mem_cons_of_mem _ hx, fun x hx => Or.inl hx⟩
              · rw [if_neg hcore] at h
                push_neg at hcore
                by_cases hblk : normalize_blocks (to_slack_block (ensure_choices ctx.env f)) = []
                · rw [if_pos hblk] at h
                  cases h
                  exact ⟨List.prefix_refl _, fun x hx => List.mem_cons_of_mem _ hx, fun x hx => Or.inl hx⟩
                · rw [if_neg hblk] at h
                  have hchar : ∀ x ∈ st.pages ++ [fid], x ∈ st.pages ∨ ∃ g, by_id ctx.all_fields x = some g ∧
                      g.ftype ≠ "default_subject" ∧ g.ftype ≠ "default_description" ∧
                      normalize_blocks (to_slack_block (ensure_choices ctx.env g)) ≠ [] := by
                    intro x hx
                    rcases List.mem_append.mp hx with hx | hx
                    · exact Or.inl hx
                    · rcases List.mem_singleton.mp hx with rfl
                      exact Or.inr ⟨f, hb, hcore.1, hcore.2, hblk⟩
                  by_cases hnest : f.ftype ≠ "nested_field"
                  · rw [if_pos hnest] at h
                    cases hsel : selected_value_for ctx.env f state with
                    | none =>
                        rw [hsel] at h
                        dsimp only at h
                        cases h
                        refine ⟨List.prefix_append _ _, fun x hx => List.mem_cons_of_mem _ hx, hchar⟩
                    | some sel =>
                        rw [hsel] at h
                        dsimp only at h
                        have := (ih.2) (active_children ctx fid (pyStr sel))
                          { st with visited := fid :: st.visited, pages := st.pages ++ [fid] } r h
                        refine ⟨(List.prefix_append _ _).trans this.1, ?_, ?_⟩
                        · exact fun x hx => this.2.1 (List.mem_cons_of_mem _ hx)
                        · intro x hx
                          rcases this.2.2 x hx with hx' | hx'
                          · exact hchar x hx'
                          · exact Or.inr hx'
                  · rw [if_neg hnest] at h
                    cases h
                    exact ⟨List.prefix_append _ _, fun x hx => List.mem_cons_of_mem _ hx, hchar⟩
      refine ⟨hadd, ?_⟩
      intro kids
      induction kids with
      | nil =>
          intro st r h
          rw [go_children] at h
          cases h
          exact ⟨List.prefix_refl _, fun x hx => hx, fun x hx => Or.inl hx⟩
      | cons k rest ihk =>
          intro st r h
          rw [go_children] at h
          cases ha : add_field_and_children ctx state (n+1) k st with
          | none => rw [ha] at h; cases h
          | some p =>
              obtain ⟨st2, ok⟩ := p
              rw [ha] at h
              have h1 := hadd k st (st2, ok) ha
              cases ok with
              | true =>
                  have h2 := ihk st2 r h
                  refine ⟨h1.1.trans h2.1, fun x hx => h2.2.1 (h1.2.1 hx), ?_⟩
                  intro x hx
                  rcases h2.2.2 x hx with hx' | hx'
                  · exact h1.2.2 x hx'
                  · exact Or.inr hx'
              | false =>
                  cases h
                  exact h1


theorem run_order_inv (ctx : Ctx) (state : StateVals) (fuel : Nat) :
    ∀ (order : List Nat) (st st' : Trav), run_order ctx state fuel order st = some st' →
      st.pages <+: st'.pages ∧ st.visited ⊆ st'.visited ∧
      (∀ x ∈ st'.pages, x ∈ st.pages ∨ ∃ f, by_id ctx.all_fields x = some f ∧
        f.ftype ≠ "default_subject" ∧ f.ftype ≠ "default_description" ∧
        normalize_blocks (to_slack_block (ensure_choices ctx.env f)) ≠ []) := by
  intro order
  induction order with
  | nil =>
      intro st st' h
      cases h
      exact ⟨List.prefix_refl _, fun x hx => hx, fun x hx => Or.inl hx⟩
  | cons fid rest ihr =>
      intro st st' h
      rw [run_order] at h
      cases ha : add_field_and_children ctx state fuel fid st with
      | none => rw [ha] at h; cases h
      | some p =>
          obtain ⟨st2, ok⟩ := p
          rw [ha] at h
          have h1 := (trav_invariants ctx state fuel).1 fid st (st2, ok) ha
          cases ok with
          | true =>
              have h2 := ihr st2 st' h
              refine ⟨h1.1.trans h2.1, fun x hx => h2.2.1 (h1.2.1 hx), ?_⟩
              intro x hx
              rcases h2.2.2 x hx with hx' | hx'
              · exact h1.2.2 x hx'
              · exact Or.inr hx'
          | false =>
              cases h
              exact h1

theorem filter_length_mono {p q : Nat → Bool} (l : List Nat)
    (h : ∀ a, p a = true → q a = true) : (l.filter p).length ≤ (l.filter q).length := by
  induction l with
  | nil => simp
  | cons a t ih =>
      by_cases hp : p a = true
      · rw [List.filter_cons_of_pos hp, List.filter_cons_of_pos (h a hp)]
        simpa using ih
      · rw [List.filter_cons_of_neg (by simpa using hp)]
        by_cases hq : q a = true
        · rw [List.filter_cons_of_pos hq]
          exact ih.trans (Nat.le_succ _)
        · rw [List.filter_cons_of_neg (by simpa using hq)]
          exact ih

/-- The count of arena field ids not yet visited: the termination measure
of the Python recursion. -/
def unvisited (allIds visited : List Nat) : Nat :=
  (allIds.filter (fun i => decide (i ∉ visited))).length

theorem unvisited_le (allIds visited : List Nat) : unvisited allIds visited ≤ allIds.length :=
  List.length_filter_le _ _

theorem unvisited_mono (allIds : List Nat) {v v' : List Nat} (h : v ⊆ v') :
    unvisited allIds v' ≤ unvisited allIds v := by
  apply filter_length_mono
  intro a ha
  simp only [decide_eq_true_eq] at *
  exact fun hmem => ha (h hmem)

theorem unvisited_lt_of_cons (allIds : List Nat) {x : Nat} {v : List Nat}
    (hx : x ∈ allIds) (hv : x ∉ v) : unvisited allIds (x :: v) < unvisited allIds v := by
  induction allIds with
  | nil => cases hx
  | cons a t ih =>
      unfold unvisited
      by_cases hax : a = x
      · subst hax
        rw [List.filter_cons_of_neg (by simp), List.filter_cons_of_pos (by simpa using hv)]
        have : ((t.filter (fun i => decide (i ∉ a :: v))).length ≤
            (t.filter (fun i => decide (i ∉ v))).length) := by
          apply filter_length_mono
          intro b hb
          simp only [decide_eq_true_eq, List.mem_cons, not_or] at *
          exact hb.2
        simp only [List.length_cons]
        omega
      · have hxt : x ∈ t := by
          rcases List.mem_cons.mp hx with h' | h'
          · exact absurd h'.symm hax
          · exact h'
        have := ih hxt
        unfold unvisited at this
        by_cases hmem : a ∈ v
        · rw [List.filter_cons_of_neg (by simp [hmem]),
            List.filter_cons_of_neg (by simp [hmem])]
          exact this
        · by_cases hmem2 : a ∈ x :: v
          · rcases List.mem_cons.mp hmem2 with h' | h'
            · exact absurd h' hax
            · exact absurd h' hmem
          · rw [List.filter_cons_of_pos (by simpa using hmem2),
              List.filter_cons_of_pos (by simpa using hmem)]
            simp only [List.length_cons]
            omega

theorem by_id_mem {all_fields : List Field} {fid : Nat} {f : Field}
    (h : by_id all_fields fid = some f) : fid ∈ all_fields.map Field.id := by
  have haux : ∀ (l : List Field) (acc : Option Field),
      l.foldl (fun acc g => if g.id = fid then some g else acc) acc = some f →
        acc = some f ∨ fid ∈ l.map Field.id := by
    intro l
    induction l with
    | nil => intro acc h'; exact Or.inl h'
    | cons g t ih =>
        intro acc h'
        rw [List.foldl_cons] at h'
        by_cases hg : g.id = fid
        · exact Or.inr (by simp [List.mem_cons, hg.symm])
        · rw [if_neg hg] at h'
          rcases ih _ h' with h'' | h''
          · exact Or.inl h''
          · exact Or.inr (by simp [h''])
  unfold by_id at h
  rcases haux all_fields none h with h' | h'
  · cases h'
  · exact h'


theorem trav_sufficient (ctx : Ctx) (state : StateVals) :
    ∀ fuel : Nat,
      (∀ fid st, unvisited (ctx.all_fields.map Field.id) st.visited < fuel →
        add_field_and_children ctx state fuel fid st ≠ none) ∧
      (∀ kids st, unvisited (ctx.all_fields.map Field.id) st.visited < fuel →
        go_children (fun k st' => add_field_and_children ctx state fuel k st') kids st ≠ none) := by
  intro fuel
  induction fuel with
  | zero =>
      constructor
      · intro _ st hlt; omega
      · intro _ st hlt; omega
  | succ n ih =>
      have hadd : ∀ fid st, unvisited (ctx.all_fields.map Field.id) st.visited < n + 1 →
          add_field_and_children ctx state (n+1) fid st ≠ none := by
        intro fid st hlt
        rw [add_field_and_children]
        by_cases hv : fid ∈ st.visited
        · rw [if_pos hv]; simp
        · rw [if_neg hv]
          dsimp only
          cases hb : by_id ctx.all_fields fid with
          | none => simp
          | some f =>
              dsimp only
              by_cases hcore : f.ftype = "default_subject" ∨ f.ftype = "default_description"
              · rw [if_pos hcore]; simp
              · rw [if_neg hcore]
                by_cases hblk : normalize_blocks (to_slack_block (ensure_choices ctx.env f)) = []
                · rw [if_pos hblk]; simp
                · rw [if_neg hblk]
                  by_cases hnest : f.ftype ≠ "nested_field"
                  · rw [if_pos hnest]
                    cases hsel : selected_value_for ctx.env f state with
                    | none => simp
                    | some sel =>
                        dsimp only
                        have hfid : fid ∈ ctx.all_fields.map Field.id := by_id_mem hb
                        have hlt2 : unvisited (ctx.all_fields.map Field.id) (fid :: st.visited) < n := by
                          have := unvisited_lt_of_cons (ctx.all_fields.map Field.id) hfid hv
                          omega
                        exact ih.2 (active_children ctx fid (pyStr sel))
                          { st with visited := fid :: st.visited, pages := st.pages ++ [fid] } hlt2
                  · rw [if_neg hnest]; simp
      refine ⟨hadd, ?_⟩
      intro kids
      induction kids with
      | nil =>
          intro st hlt
          rw [go_children]
          simp
      | cons k rest ihk =>
          intro st hlt
          rw [go_children]
          cases ha : add_field_and_children ctx state (n+1) k st with
          | none => exact absurd ha (hadd k st hlt)
          | some p =>
              obtain ⟨st2, ok⟩ := p
              have hvis := ((trav_invariants ctx state (n+1)).1 k st (st2, ok) ha).2.1
              dsimp only at hvis
              cases ok with
              | true =>
                  have hlt2 : unvisited (ctx.all_fields.map Field.id) st2.visited < n + 1 := by
                    have := unvisited_mono (ctx.all_fields.map Field.id) hvis
                    omega
                  exact ihk st2 hlt2
              | false => simp


theorem run_order_some (ctx : Ctx) (state : StateVals) :
    ∀ (order : List Nat) (st : Trav),
      run_order ctx state (ctx.all_fields.length + 1) order st ≠ none := by
  intro order
  induction order with
  | nil => intro st; rw [run_order]; simp
  | cons fid rest ihr =>
      intro st
      rw [run_order]
      have hlt : unvisited (ctx.all_fields.map Field.id) st.visited < ctx.all_fields.length + 1 := by
        have h1 := unvisited_le (ctx.all_fields.map Field.id) st.visited
        rw [List.length_map] at h1
        omega
      cases ha : add_field_and_children ctx state (ctx.all_fields.length + 1) fid st with
      | none => exact absurd ha ((trav_sufficient ctx state _).1 fid st hlt)
      | some p =>
          obtain ⟨st2, ok⟩ := p
          cases ok with
          | true => exact ihr st2
          | false => simp

theorem wizard_traversal_some (env : Env) (fd : FormDetail) (form : Form)
    (all_fields : List Field) (state : StateVals) :
    wizard_traversal env fd form all_fields state ≠ none :=
  run_order_some ⟨env, all_fields, fd.sections⟩ state _ _

theorem compute_pages_ok_inv (env : Env) (form : Form) (all_fields : List Field)
    (s : StateVals) (p : List PageItem) (h : compute_pages env form all_fields s = .ok p) :
    ∃ ns : List Nat, p = ns.map PageItem.field ++ [PageItem.core, PageItem.terminal] ∧
      ∀ x ∈ ns, ∃ f, by_id all_fields x = some f ∧ f.ftype ≠ "default_subject" ∧
        f.ftype ≠ "default_description" ∧
        normalize_blocks (to_slack_block (ensure_choices env f)) ≠ [] := by
  unfold compute_pages at h
  cases hfd : env.formDetail form.id with
  | error e => rw [hfd] at h; cases h
  | ok fd =>
      rw [hfd] at h
      cases h
      unfold pages_of_traversal wizard_traversal
      cases htr : run_order ⟨env, all_fields, fd.sections⟩ s (wizard_fuel all_fields)
          (wizard_id_order env fd form all_fields) ⟨[], []⟩ with
      | none =>
          exact ⟨[], by simp, by simp⟩
      | some t =>
          refine ⟨t.pages, by simp, ?_⟩
          intro x hx
          have hinv := (run_order_inv ⟨env, all_fields, fd.sections⟩ s (wizard_fuel all_fields)
            (wizard_id_order env fd form all_fields) ⟨[], []⟩ t htr).2.2 x hx
          rcases hinv with h' | h'
          · cases h'
          · exact h'

theorem trav_mono (ctx : Ctx) (s₁ s₂ : StateVals)
    (HS : ∀ f, selected_value_for ctx.env f s₁ ≠ none →
      selected_value_for ctx.env f s₂ = selected_value_for ctx.env f s₁) :
    ∀ fuel : Nat,
      (∀ fid st st₁ ok₁ st₂ ok₂,
        add_field_and_children ctx s₁ fuel fid st = some (st₁, ok₁) →
        add_field_and_children ctx s₂ fuel fid st = some (st₂, ok₂) →
        (ok₁ = true → st₂ = st₁ ∧ ok₂ = true) ∧ (ok₁ = false → st₁.pages <+: st₂.pages)) ∧
      (∀ kids st st₁ ok₁ st₂ ok₂,
        go_children (fun k st' => add_field_and_children ctx s₁ fuel k st') kids st = some (st₁, ok₁) →
        go_children (fun k st' => add_field_and_children ctx s₂ fuel k st') kids st = some (st₂, ok₂) →
        (ok₁ = true → st₂ = st₁ ∧ ok₂ = true) ∧ (ok₁ = false → st₁.pages <+: st₂.pages)) := by
  intro fuel
  induction fuel with
  | zero =>
      constructor
      · intro fid st st₁ ok₁ st₂ ok₂ h₁ h₂
        simp [add_field_and_children] at h₁
      · intro kids st st₁ ok₁ st₂ ok₂ h₁ h₂
        cases kids with
        | nil =>
            rw [go_children] at h₁ h₂
            cases h₁; cases h₂
            exact ⟨fun _ => ⟨rfl, rfl⟩, fun hcon => by cases hcon⟩
        | cons k rest =>
            rw [go_children] at h₁
            simp [add_field_and_children] at h₁
  | succ n ih =>
      have hadd : ∀ fid st st₁ ok₁ st₂ ok₂,
          add_field_and_children ctx s₁ (n+1) fid st = some (st₁, ok₁) →
          add_field_and_children ctx s₂ (n+1) fid st = some (st₂, ok₂) →
          (ok₁ = true → st₂ = st₁ ∧ ok₂ = true) ∧ (ok₁ = false → st₁.pages <+: st₂.pages) := by
        intro fid st st₁ ok₁ st₂ ok₂ h₁ h₂
        rw [add_field_and_children] at h₁ h₂
        by_cases hv : fid ∈ st.visited
        · rw [if_pos hv] at h₁ h₂
          cases h₁; cases h₂
          exact ⟨fun _ => ⟨rfl, rfl⟩, fun hcon => by cases hcon⟩
        · rw [if_neg hv] at h₁ h₂
          dsimp only at h₁ h₂
          cases hb : by_id ctx.all_fields fid with
          | none =>
              rw [hb] at h₁ h₂
              dsimp only at h₁ h₂
              cases h₁; cases h₂
              exact ⟨fun _ => ⟨rfl, rfl⟩, fun hcon => by cases hcon⟩
          | some f =>
              rw [hb] at h₁ h₂
              dsimp only at h₁ h₂
              by_cases hcore : f.ftype = "default_subject" ∨ f.ftype = "default_description"
              · rw [if_pos hcore] at h₁ h₂
                cases h₁; cases h₂
                exact ⟨fun _ => ⟨rfl, rfl⟩, fun hcon => by cases hcon⟩
              · rw [if_neg hcore] at h₁ h₂
                by_cases hblk : normalize_blocks (to_slack_block (ensure_choices ctx.env f)) = []
                · rw [if_pos hblk] at h₁ h₂
                  cases h₁; cases h₂
                  exact ⟨fun _ => ⟨rfl, rfl⟩, fun hcon => by cases hcon⟩
                · rw [if_neg hblk] at h₁ h₂
                  by_cases hnest : f.ftype ≠ "nested_field"
                  · rw [if_pos hnest] at h₁ h₂
                    cases hsel : selected_value_for ctx.env f s₁ with
                    | none =>
                        rw [hsel] at h₁
                        dsimp only at h₁
                        cases h₁
                        refine ⟨(fun hcon => by cases hcon), fun _ => ?_⟩
                        cases hsel₂ : selected_value_for ctx.env f s₂ with
                        | none =>
                            rw [hsel₂] at h₂
                            dsimp only at h₂
                            cases h₂
                            exact List.prefix_refl _
                        | some sel₂ =>
                            rw [hsel₂] at h₂
                            dsimp only at h₂
                            exact ((trav_invariants ctx s₂ n).2 _ _ _ h₂).1
                    | some sel =>
                        have hsel₂ : selected_value_for ctx.env f s₂ = some sel := by
                          rw [HS f (by rw [hsel]; simp), hsel]
                        rw [hsel] at h₁
                        rw [hsel₂] at h₂
                        dsimp only at h₁ h₂
                        exact ih.2 _ _ _ _ _ _ h₁ h₂
                  · rw [if_neg hnest] at h₁ h₂
                    cases h₁; cases h₂
                    exact ⟨fun _ => ⟨rfl, rfl⟩, fun hcon => by cases hcon⟩
      refine ⟨hadd, ?_⟩
      intro kids
      induction kids with
      | nil =>
          intro st st₁ ok₁ st₂ ok₂ h₁ h₂
          rw [go_children] at h₁ h₂
          cases h₁; cases h₂
          exact ⟨fun _ => ⟨rfl, rfl⟩, fun hcon => by cases hcon⟩
      | cons k rest ihk =>
          intro st st₁ ok₁ st₂ ok₂ h₁ h₂
          rw [go_children] at h₁ h₂
          cases ha₁ : add_field_and_children ctx s₁ (n+1) k st with
          | none => rw [ha₁] at h₁; cases h₁
          | some p₁ =>
              obtain ⟨stA, okA⟩ := p₁
              rw [ha₁] at h₁
              cases ha₂ : add_field_and_children ctx s₂ (n+1) k st with
              | none => rw [ha₂] at h₂; cases h₂
              | some p₂ =>
                  obtain ⟨stB, okB⟩ := p₂
                  rw [ha₂] at h₂
                  have hm := hadd k st stA okA stB okB ha₁ ha₂
                  cases okA with
                  | true =>
                      obtain ⟨rfl, rfl⟩ : stB = stA ∧ okB = true := hm.1 rfl
                      exact ihk _ st₁ ok₁ st₂ ok₂ h₁ h₂
                  | false =>
                      cases h₁
                      have hpre := hm.2 rfl
                      refine ⟨(fun hcon => by cases hcon), fun _ => ?_⟩
                      cases okB with
                      | true =>
                          exact hpre.trans (((trav_invariants ctx s₂ (n+1)).2 _ _ _ h₂).1)
                      | false =>
                          cases h₂
                          exact hpre


theorem run_order_mono (ctx : Ctx) (s₁ s₂ : StateVals)
    (HS : ∀ f, selected_value_for ctx.env f s₁ ≠ none →
      selected_value_for ctx.env f s₂ = selected_value_for ctx.env f s₁)
    (fuel : Nat) :
    ∀ (order : List Nat) (st st₁ st₂ : Trav),
      run_order ctx s₁ fuel order st = some st₁ →
      run_order ctx s₂ fuel order st = some st₂ → st₁.pages <+: st₂.pages := by
  intro order
  induction order with
  | nil =>
      intro st st₁ st₂ h₁ h₂
      cases h₁; cases h₂
      exact List.prefix_refl _
  | cons fid rest ihr =>
      intro st st₁ st₂ h₁ h₂
      rw [run_order] at h₁ h₂
      cases ha₁ : add_field_and_children ctx s₁ fuel fid st with
      | none => rw [ha₁] at h₁; cases h₁
      | some p₁ =>
          obtain ⟨stA, okA⟩ := p₁
          rw [ha₁] at h₁
          cases ha₂ : add_field_and_children ctx s₂ fuel fid st with
          | none => rw [ha₂] at h₂; cases h₂
          | some p₂ =>
              obtain ⟨stB, okB⟩ := p₂
              rw [ha₂] at h₂
              have hm := (trav_mono ctx s₁ s₂ HS fuel).1 fid st stA okA stB okB ha₁ ha₂
              cases okA with
              | true =>
                  obtain ⟨rfl, rfl⟩ : stB = stA ∧ okB = true := hm.1 rfl
                  exact ihr _ st₁ st₂ h₁ h₂
              | false =>
                  cases h₁
                  have hpre := hm.2 rfl
                  cases okB with
                  | true =>
                      exact hpre.trans
                        ((run_order_inv ctx s₂ fuel rest stB st₂ h₂).1)
                  | false =>
                      cases h₂
                      exact hpre

theorem trav_stable (ctx : Ctx) (s s' : StateVals) (P : List Nat)
    (HP : ∀ fid f, by_id ctx.all_fields fid = some f → fid ∈ P →
      lookup_entry s' f.name = lookup_entry s f.name) :
    ∀ fuel : Nat,
      (∀ fid st r, add_field_and_children ctx s fuel fid st = some r →
        (∀ x ∈ r.1.pages, x ∈ P) → add_field_and_children ctx s' fuel fid st = some r) ∧
      (∀ kids st r, go_children (fun k st' => add_field_and_children ctx s fuel k st') kids st = some r →
        (∀ x ∈ r.1.pages, x ∈ P) →
        go_children (fun k st' => add_field_and_children ctx s' fuel k st') kids st = some r) := by
  intro fuel
  induction fuel with
  | zero =>
      constructor
      · intro fid st r h hP
        simp [add_field_and_children] at h
      · intro kids st r h hP
        cases kids with
        | nil => rw [go_children] at h ⊢; exact h
        | cons k rest =>
            rw [go_children] at h
            simp [add_field_and_children] at h
  | succ n ih =>
      have hadd : ∀ fid st r, add_field_and_children ctx s (n+1) fid st = some r →
          (∀ x ∈ r.1.pages, x ∈ P) → add_field_and_children ctx s' (n+1) fid st = some r := by
        intro fid st r h hP
        rw [add_field_and_children] at h ⊢
        by_cases hv : fid ∈ st.visited
        · rw [if_pos hv] at h ⊢; exact h
        · rw [if_neg hv] at h ⊢
          dsimp only at h ⊢
          cases hb : by_id ctx.all_fields fid with
          | none =>
              rw [hb] at h
              dsimp only
              exact h
          | some f =>
              rw [hb] at h
              dsimp only at h ⊢
              by_cases hcore : f.ftype = "default_subject" ∨ f.ftype = "default_description"
              · rw [if_pos hcore] at h ⊢; exact h
              · rw [if_neg hcore] at h ⊢
                by_cases hblk : normalize_blocks (to_slack_block (ensure_choices ctx.env f)) = []
                · rw [if_pos hblk] at h ⊢; exact h
                · rw [if_neg hblk] at h ⊢
                  by_cases hnest : f.ftype ≠ "nested_field"
                  · rw [if_pos hnest] at h ⊢
                    have hfidP : fid ∈ P := by
                      apply hP
                      have hx : fid ∈ st.pages ++ [fid] := by simp
                      cases hsel : selected_value_for ctx.env f s with
                      | none =>
                          rw [hsel] at h
                          dsimp only at h
                          cases h
                          simp
                      | some sel =>
                          rw [hsel] at h
                          dsimp only at h
                          exact ((trav_invariants ctx s n).2 _ _ _ h).1.subset hx
                    have hsel' : selected_value_for ctx.env f s' = selected_value_for ctx.env f s := by
                      unfold selected_value_for
                      rw [HP fid f hb hfidP]
                    rw [hsel']
                    cases hsel : selected_value_for ctx.env f s with
                    | none =>
                        rw [hsel] at h
                        exact h
                    | some sel =>
                        rw [hsel] at h
                        dsimp only at h ⊢
                        exact ih.2 _ _ _ h hP
                  · rw [if_neg hnest] at h ⊢; exact h
      refine ⟨hadd, ?_⟩
      intro kids
      induction kids with
      | nil =>
          intro st r h hP
          rw [go_children] at h ⊢
          exact h
      | cons k rest ihk =>
          intro st r h hP
          rw [go_children] at h ⊢
          cases ha : add_field_and_children ctx s (n+1) k st with
          | none => rw [ha] at h; cases h
          | some p =>
              obtain ⟨stA, okA⟩ := p
              rw [ha] at h
              have hPA : ∀ x ∈ stA.pages, x ∈ P := by
                intro x hx
                cases okA with
                | true =>
                    exact hP x (((trav_invariants ctx s (n+1)).2 rest stA r h).1.subset hx)
                | false =>
                    cases h
                    exact hP x hx
              rw [hadd k st (stA, okA) ha hPA]
              cases okA with
              | true => exact ihk stA r h hP
              | false => exact h


theorem run_order_stable (ctx : Ctx) (s s' : StateVals) (P : List Nat)
    (HP : ∀ fid f, by_id ctx.all_fields fid = some f → fid ∈ P →
      lookup_entry s' f.name = lookup_entry s f.name) (fuel : Nat) :
    ∀ (order : List Nat) (st st' : Trav),
      run_order ctx s fuel order st = some st' → (∀ x ∈ st'.pages, x ∈ P) →
      run_order ctx s' fuel order st = some st' := by
  intro order
  induction order with
  | nil =>
      intro st st' h hP
      exact h
  | cons fid rest ihr =>
      intro st st' h hP
      rw [run_order] at h ⊢
      cases ha : add_field_and_children ctx s fuel fid st with
      | none => rw [ha] at h; cases h
      | some p =>
          obtain ⟨stA, okA⟩ := p
          rw [ha] at h
          have hPA : ∀ x ∈ stA.pages, x ∈ P := by
            intro x hx
            cases okA with
            | true =>
                exact hP x ((run_order_inv ctx s fuel rest stA st' h).1.subset hx)
            | false =>
                cases h
                exact hP x hx
          rw [(trav_stable ctx s s' P HP fuel).1 fid st (stA, okA) ha hPA]
          cases okA with
          | true => exact ihr stA st' h hP
          | false => exact h
/-! ### Bridging lemmas -/

theorem fieldPages_shape (ns : List Nat) :
    fieldPages (ns.map PageItem.field ++ [PageItem.core, PageItem.terminal]) = ns := by
  induction ns with
  | nil => rfl
  | cons a t ih =>
      unfold fieldPages at ih ⊢
      simp only [List.map_cons, List.cons_append, List.filterMap_cons]
      rw [ih]

theorem svLookup_filter (valid : List String) (s : StateVals) (k : String) (hk : k ∈ valid) :
    svLookup (prune_values valid s) k = svLookup s k := by
  induction s with
  | nil => rfl
  | cons kv t ih =>
      unfold prune_values at ih ⊢
      by_cases hkv : kv.1 ∈ valid
      · rw [List.filter_cons_of_pos (by simpa using hkv)]
        unfold svLookup
        by_cases heq : kv.1 = k
        · rw [List.find?_cons_of_pos _ (by simpa using heq),
            List.find?_cons_of_pos _ (by simpa using heq)]
        · rw [List.find?_cons_of_neg _ (by simpa using heq),
            List.find?_cons_of_neg _ (by simpa using heq)]
          exact ih
      · rw [List.filter_cons_of_neg (by simpa using hkv)]
        have heq : kv.1 ≠ k := fun h => hkv (h ▸ hk)
        unfold svLookup
        rw [List.find?_cons_of_neg _ (by simpa using heq)]
        exact ih

theorem svKeys_prune_mem (valid : List String) (s : StateVals) (k : String) :
    k ∈ svKeys (prune_values valid s) ↔ k ∈ svKeys s ∧ k ∈ valid := by
  unfold svKeys prune_values
  constructor
  · intro h
    rcases List.mem_map.mp h with ⟨kv, hkv, rfl⟩
    have := List.mem_filter.mp hkv
    refine ⟨List.mem_map.mpr ⟨kv, this.1, rfl⟩, by simpa using this.2⟩
  · rintro ⟨h1, h2⟩
    rcases List.mem_map.mp h1 with ⟨kv, hkv, rfl⟩
    exact List.mem_map.mpr ⟨kv, List.mem_filter.mpr ⟨hkv, by simpa using h2⟩, rfl⟩

theorem page_field_names_mem (all_fields : List Field) (pages : List PageItem) (k : String) :
    k ∈ page_field_names all_fields pages ↔
      ∃ fid f, PageItem.field fid ∈ pages ∧ by_id all_fields fid = some f ∧
        f.name = some k ∧ k ≠ "" := by
  unfold page_field_names
  rw [List.mem_filterMap]
  constructor
  · rintro ⟨p, hp, hsome⟩
    cases p with
    | core => simp at hsome
    | terminal => simp at hsome
    | field fid =>
        dsimp only at hsome
        cases hb : by_id all_fields fid with
        | none => rw [hb] at hsome; simp at hsome
        | some f =>
            rw [hb] at hsome
            dsimp only at hsome
            cases hn : f.name with
            | none => rw [hn] at hsome; simp at hsome
            | some n =>
                rw [hn] at hsome
                dsimp only at hsome
                by_cases hne : n ≠ ""
                · rw [if_pos hne] at hsome
                  cases hsome
                  exact ⟨fid, f, hp, hb, hn, hne⟩
                · rw [if_neg hne] at hsome
                  cases hsome
  · rintro ⟨fid, f, hp, hb, hn, hne⟩
    refine ⟨PageItem.field fid, hp, ?_⟩
    dsimp only
    rw [hb]
    dsimp only
    rw [hn]
    simp [hne]

theorem selected_congr (env : Env) (f : Field) (s₁ s₂ : StateVals)
    (h : lookup_entry s₁ f.name = lookup_entry s₂ f.name) :
    selected_value_for env f s₁ = selected_value_for env f s₂ := by
  unfold selected_value_for
  rw [h]

theorem prune_stable (env : Env) (form : Form) (all_fields : List Field)
    (merged : StateVals) (pages1 : List PageItem)
    (hm : compute_pages env form all_fields merged = .ok pages1)
    (hname : ∀ fid f, by_id all_fields fid = some f → PageItem.field fid ∈ pages1 →
      f.name ≠ some "") :
    compute_pages env form all_fields
      (prune_values (page_field_names all_fields pages1) merged) = .ok pages1 := by
  unfold compute_pages at hm ⊢
  cases hfd : env.formDetail form.id with
  | error e =>
      rw [hfd] at hm
      simp at hm
  | ok fd =>
      rw [hfd] at hm
      dsimp only at hm ⊢
      cases hm
      cases htr : wizard_traversal env fd form all_fields merged with
      | none => exact absurd htr (wizard_traversal_some env fd form all_fields merged)
      | some t =>
          rw [htr] at hname
          have htr' : run_order ⟨env, all_fields, fd.sections⟩ merged (wizard_fuel all_fields)
              (wizard_id_order env fd form all_fields) ⟨[], []⟩ = some t := by
            unfold wizard_traversal at htr
            exact htr
          have hfieldmem : ∀ x ∈ t.pages,
              PageItem.field x ∈ pages_of_traversal (some t) := by
            intro x hx
            unfold pages_of_traversal
            exact List.mem_append_left _ (List.mem_map.mpr ⟨x, hx, rfl⟩)
          have HP : ∀ fid f, by_id all_fields fid = some f → fid ∈ t.pages →
              lookup_entry
                (prune_values (page_field_names all_fields (pages_of_traversal (some t))) merged)
                f.name = lookup_entry merged f.name := by
            intro fid f hb hfid
            cases hn : f.name with
            | none => rfl
            | some n =>
                have hne : n ≠ "" := by
                  intro hcon
                  exact hname fid f hb (hfieldmem fid hfid) (by rw [hn, hcon])
                have hmem : n ∈ page_field_names all_fields (pages_of_traversal (some t)) := by
                  rw [page_field_names_mem]
                  exact ⟨fid, f, hfieldmem fid hfid, hb, hn, hne⟩
                unfold lookup_entry
                dsimp only
                rw [svLookup_filter _ _ _ hmem]
          have hstable := run_order_stable ⟨env, all_fields, fd.sections⟩ merged
            (prune_values (page_field_names all_fields (pages_of_traversal (some t))) merged)
            t.pages HP (wizard_fuel all_fields)
            (wizard_id_order env fd form all_fields) ⟨[], []⟩ t htr'
            (fun x hx => hx)
          have hwt : wizard_traversal env fd form all_fields
              (prune_values (page_field_names all_fields (pages_of_traversal (some t))) merged) =
                some t := by
            unfold wizard_traversal
            exact hstable
          rw [hwt]
/-- `fieldPages` of a completed traversal's page list recovers the
traversal's field pages. -/
theorem fieldPages_pages_of_traversal (t : Trav) :
    fieldPages (pages_of_traversal (some t)) = t.pages :=
  fieldPages_shape t.pages

/-! ### Shared concrete fixtures -/

/-- The `country` dropdown of the spec's branching scenario (§8). -/
def fx_country : Field :=
  { id := 1, name := some "country", ftype := "custom_dropdown",
    displayed_to_customers := true,
    own_choices := some (.cdict [("US", "US"), ("FR", "FR")]) }

/-- The conditional `region` child of the branching scenario. -/
def fx_region : Field :=
  { id := 2, name := some "region", ftype := "custom_text", displayed_to_customers := true }

/-- The form of the branching scenario. -/
def fx_form : Form := { id := 5, fields := [.plain 1] }

/-- The form detail of the branching scenario: field order `[country]`,
one conditional section (id 7). -/
def fx_fd : FormDetail := { fields := [.plain 1], sections := [7] }

/-- The collaborator responses of the branching scenario: section 7 hangs
off `country`, is activated by `"FR"` and exposes `region`. -/
def fx_env : Env :=
  { formDetail := fun _ => .ok fx_fd,
    sections := fun fid =>
      if fid = 1 then [{ id := 7, choices := some (.cdict [("FR", "FR")]), fields := [.plain 2] }]
      else [],
    fieldDetail := fun _ => none,
    adminFields := .ok [fx_country, fx_region] }

/-- A static-select state entry carrying `v`. -/
def fx_sel (v : String) : Entry := [("a", { dtype := some "static_select", selected_option := some (some v) })]

/-- A plain-text state entry carrying `v`. -/
def fx_txt (v : String) : Entry := [("a", { dtype := some "plain_text_input", value := some v })]

/-! ### C1 -/

/-- Acyclicity of the field-dependency graph induced by the form's
conditional sections: some rank function increases from the owning field
to every conditional child. -/
def SectionsAcyclic (env : Env) (fd : FormDetail) : Prop :=
  ∃ rank : Nat → Nat, ∀ p sec c, sec ∈ env.sections p → sec.id ∈ fd.sections →
    c ∈ normalize_id_list sec.fields → rank p < rank c

/-- C1: for every form, field list and answer set whose field-dependency
graph is acyclic, `compute_pages` terminates (the traversal never exhausts
its fuel, which formalises termination of the Python recursion) and
returns a page list ending in the `Core` marker followed by the `Terminal`
marker, regardless of whether the traversal was blocked. -/
theorem C1_compute_pages_terminates (env : Env) (form : Form) (all_fields : List Field)
    (state : StateVals) (fd : FormDetail) (hfd : env.formDetail form.id = .ok fd)
    (_hacyc : SectionsAcyclic env fd) :
    wizard_traversal env fd form all_fields state ≠ none ∧
    ∃ ns : List Nat, compute_pages env form all_fields state =
      .ok (ns.map PageItem.field ++ [PageItem.core, PageItem.terminal]) := by
  refine ⟨wizard_traversal_some env fd form all_fields state, ?_⟩
  have h : compute_pages env form all_fields state =
      .ok (pages_of_traversal (wizard_traversal env fd form all_fields state)) := by
    unfold compute_pages
    rw [hfd]
  cases htr : wizard_traversal env fd form all_fields state with
  | none => exact absurd htr (wizard_traversal_some env fd form all_fields state)
  | some t =>
      refine ⟨t.pages, ?_⟩
      rw [h, htr]
      rfl

/-- Witness for C1 at the concrete branching fixture. -/
theorem C1_witness :
    wizard_traversal fx_env fx_fd fx_form [fx_country, fx_region] [] ≠ none ∧
    ∃ ns : List Nat, compute_pages fx_env fx_form [fx_country, fx_region] [] =
      .ok (ns.map PageItem.field ++ [PageItem.core, PageItem.terminal]) := by
  apply C1_compute_pages_terminates fx_env fx_form [fx_country, fx_region] [] fx_fd rfl
  refine ⟨fun n => n, ?_⟩
  intro p sec c h1 h2 h3
  by_cases hp : p = 1
  · subst hp
    simp [fx_env] at h1
    subst h1
    simp [normalize_id_list] at h3
    subst h3
    exact Nat.one_lt_two
  · simp [fx_env, hp] at h1

/-! ### C2 -/

/-- C2: if answer set `A` is a superset of `B` agreeing with `B` on every
key of `B`, the `FieldPage` entries (excluding `Core`/`Terminal`) of
`compute_pages` on `B` form a prefix of those on `A`. -/
theorem C2_pages_monotone (env : Env) (form : Form) (all_fields : List Field)
    (B A : StateVals) (hBA : ∀ k e, svLookup B k = some e → svLookup A k = some e)
    (pB pA : List PageItem) (hB : compute_pages env form all_fields B = .ok pB)
    (hA : compute_pages env form all_fields A = .ok pA) :
    fieldPages pB <+: fieldPages pA := by
  have HS : ∀ f, selected_value_for env f B ≠ none →
      selected_value_for env f A = selected_value_for env f B := by
    intro f hne
    apply selected_congr
    cases hn : f.name with
    | none => rfl
    | some n =>
        cases hl : svLookup B n with
        | none =>
            exfalso
            apply hne
            unfold selected_value_for lookup_entry
            rw [hn]
            dsimp only
            rw [hl]
            rfl
        | some e =>
            unfold lookup_entry
            dsimp only
            rw [hBA n e hl, hl]
  unfold compute_pages at hB hA
  cases hfd : env.formDetail form.id with
  | error e =>
      rw [hfd] at hB
      simp at hB
  | ok fd =>
      rw [hfd] at hB hA
      dsimp only at hB hA
      cases hB
      cases hA
      cases htrB : wizard_traversal env fd form all_fields B with
      | none => exact absurd htrB (wizard_traversal_some env fd form all_fields B)
      | some tB =>
          cases htrA : wizard_traversal env fd form all_fields A with
          | none => exact absurd htrA (wizard_traversal_some env fd form all_fields A)
          | some tA =>
              rw [fieldPages_pages_of_traversal, fieldPages_pages_of_traversal]
              unfold wizard_traversal at htrB htrA
              exact run_order_mono ⟨env, all_fields, fd.sections⟩ B A HS
                (wizard_fuel all_fields) (wizard_id_order env fd form all_fields)
                ⟨[], []⟩ tB tA htrB htrA

/-- Witness for C2: the empty answer set against the `country = "FR"`
answer set on the branching fixture. -/
theorem C2_witness :
    fieldPages [PageItem.field 1, PageItem.core, PageItem.terminal] <+:
      fieldPages [PageItem.field 1, PageItem.field 2, PageItem.core, PageItem.terminal] := by
  apply C2_pages_monotone fx_env fx_form [fx_country, fx_region] []
    [("country", fx_sel "FR")]
  · intro k e h
    simp [svLookup] at h
  · rfl
  · rfl

/-- Membership in `fieldPages`. -/
theorem mem_fieldPages (pages : List PageItem) (fid : Nat) :
    fid ∈ fieldPages pages ↔ PageItem.field fid ∈ pages := by
  unfold fieldPages
  rw [List.mem_filterMap]
  constructor
  · rintro ⟨p, hp, hsome⟩
    cases p with
    | field n => dsimp only at hsome; cases hsome; exact hp
    | core => simp at hsome
    | terminal => simp at hsome
  · intro hp
    exact ⟨PageItem.field fid, hp, rfl⟩

/-- Reduce the per-field nonempty-name condition to a decidable scan of
the page list. -/
theorem name_hyp_of_list (fd_fields : List Field) (pages1 : List PageItem)
    (h : ∀ fid ∈ fieldPages pages1, (by_id fd_fields fid).map Field.name ≠ some (some "")) :
    ∀ fid f, by_id fd_fields fid = some f → PageItem.field fid ∈ pages1 →
      f.name ≠ some "" := by
  intro fid f hb hp hcon
  exact h fid ((mem_fieldPages pages1 fid).mpr hp) (by simp [hb, hcon])

/-! ### C3 -/

/-- C3 (amended): after the prune step of a wizard update, provided every
field behind a `FieldPage` of the first computed page list carries a
nonempty name, every answer key that remains in the session corresponds
to some `FieldPage` of the freshly recomputed page list. -/
theorem C3_prune_law (env : Env) (form : Form) (fd_fields : List Field) (sess : Session)
    (new_state : StateVals) (nav : Option String) (pages1 : List PageItem)
    (hm : compute_pages env form fd_fields (merge_values sess.values new_state) = .ok pages1)
    (hname : ∀ fid f, by_id fd_fields fid = some f → PageItem.field fid ∈ pages1 →
      f.name ≠ some "") :
    ∃ pages2 : List PageItem,
      compute_pages env form fd_fields
        (update_wizard_step env form fd_fields sess new_state nav).values = .ok pages2 ∧
      ∀ k ∈ svKeys (update_wizard_step env form fd_fields sess new_state nav).values,
        ∃ fid f, PageItem.field fid ∈ pages2 ∧ by_id fd_fields fid = some f ∧
          f.name = some k := by
  have hp2 := prune_stable env form fd_fields (merge_values sess.values new_state) pages1 hm hname
  have hv : (update_wizard_step env form fd_fields sess new_state nav).values =
      prune_values (page_field_names fd_fields pages1) (merge_values sess.values new_state) := by
    unfold update_wizard_step
    dsimp only
    rw [hm]
    dsimp only
    rw [hp2]
  refine ⟨pages1, by rw [hv]; exact hp2, ?_⟩
  intro k hk
  rw [hv] at hk
  have := (svKeys_prune_mem (page_field_names fd_fields pages1)
    (merge_values sess.values new_state) k).mp hk
  rcases (page_field_names_mem fd_fields pages1 k).mp this.2 with ⟨fid, f, hp, hb, hn, _⟩
  exact ⟨fid, f, hp, hb, hn⟩

/-- Field 1 of the C3 counterexample: renders a page but its name is the
empty string, so pruning never keeps its answer. -/
def c3_f1 : Field :=
  { id := 1, name := some "", ftype := "custom_text", displayed_to_customers := true }

/-- Field 2 of the C3 counterexample, an ordinary named text field. -/
def c3_f2 : Field :=
  { id := 2, name := some "b", ftype := "custom_text", displayed_to_customers := true }

/-- The form of the C3 counterexample. -/
def c3_form : Form := { id := 9 }

/-- Collaborator responses of the C3 counterexample. -/
def c3_env : Env :=
  { formDetail := fun _ => .ok { fields := [.plain 1, .plain 2] },
    sections := fun _ => [], fieldDetail := fun _ => none, adminFields := .ok [] }

/-- The answer state of the C3 counterexample: both fields answered, one
under the empty-string key. -/
def c3_state : StateVals := [("", fx_txt "x"), ("b", fx_txt "y")]

/-- C3 counterexample: after a wizard update from `c3_state`, the key
`"b"` survives pruning, yet the freshly recomputed page list blocks at
the empty-named field 1, so no `FieldPage` of the recomputed list carries
a field named `"b"` — the pruning law as stated fails on the code. -/
theorem C3_counterexample :
    "b" ∈ svKeys (update_wizard_step c3_env c3_form [c3_f1, c3_f2] ⟨9, 1, c3_state⟩ [] none).values ∧
    compute_pages c3_env c3_form [c3_f1, c3_f2]
        (update_wizard_step c3_env c3_form [c3_f1, c3_f2] ⟨9, 1, c3_state⟩ [] none).values =
      .ok [PageItem.field 1, PageItem.core, PageItem.terminal] ∧
    ∀ fid f, PageItem.field fid ∈ [PageItem.field 1, PageItem.core, PageItem.terminal] →
      by_id [c3_f1, c3_f2] fid = some f → f.name ≠ some "b" := by
  refine ⟨by decide, by decide, ?_⟩
  intro fid f hmem hby
  have hfid : fid = 1 := by simpa using hmem
  subst hfid
  have : f = c3_f1 := by
    have hby' : some c3_f1 = some f := by rw [← hby]; decide
    cases hby'
    rfl
  subst this
  decide

/-- Witness for C3 (amended) at the branching fixture with both questions
answered. -/
theorem C3_witness :
    ∃ pages2 : List PageItem,
      compute_pages fx_env fx_form [fx_country, fx_region]
        (update_wizard_step fx_env fx_form [fx_country, fx_region]
          ⟨5, 0, [("country", fx_sel "FR"), ("region", fx_txt "Paris")]⟩ [] none).values =
        .ok pages2 ∧
      ∀ k ∈ svKeys (update_wizard_step fx_env fx_form [fx_country, fx_region]
          ⟨5, 0, [("country", fx_sel "FR"), ("region", fx_txt "Paris")]⟩ [] none).values,
        ∃ fid f, PageItem.field fid ∈ pages2 ∧ by_id [fx_country, fx_region] fid = some f ∧
          f.name = some k := by
  apply C3_prune_law fx_env fx_form [fx_country, fx_region]
    ⟨5, 0, [("country", fx_sel "FR"), ("region", fx_txt "Paris")]⟩ [] none
    [PageItem.field 1, PageItem.field 2, PageItem.core, PageItem.terminal] (by decide)
  apply name_hyp_of_list
  decide

/-! ### C4 -/

/-- The nested-container fixture of
`tests/test_nested_field_pages.py`: a `nested_field` with two dependent
children `cat` and `app`. -/
def c4_nested : Field :=
  { id := 100, ftype := "nested_field", required_for_customers := true,
    dependent_fields := [{ id := 10, name := "cat" }, { id := 11, name := "app" }] }

/-- The form of the nested-container fixture. -/
def c4_form : Form := { id := 1, fields := [.plain 100] }

/-- Collaborator responses of the nested-container fixture (the test
monkeypatches `get_form_detail` to `{"fields": [100]}`; sections are
empty). -/
def c4_env : Env :=
  { formDetail := fun _ => .ok { fields := [.plain 100] },
    sections := fun _ => [], fieldDetail := fun _ => none, adminFields := .ok [] }

/-- C4: evaluating the code at the repository's own test fixture. The
test `test_compute_pages_linearizes_nested_fields` asserts
`pages == [10, "core", None]` with no answers and `[10, 11, "core", None]`
once `cat` is answered, but the code emits a single page for the
container field 100 in both cases; and a `next` navigation from that page
does not advance, because the container never carries an answer of its
own. -/
theorem C4_code_evaluation :
    compute_pages c4_env c4_form [c4_nested] [] =
      .ok [PageItem.field 100, PageItem.core, PageItem.terminal] ∧
    compute_pages c4_env c4_form [c4_nested] [("cat", fx_txt "x")] =
      .ok [PageItem.field 100, PageItem.core, PageItem.terminal] ∧
    (update_wizard_step c4_env c4_form [c4_nested] ⟨1, 0, []⟩ [] (some "next")).page = 0 := by
  refine ⟨by decide, by decide, by decide⟩

/-! ### C7 -/

/-- C7: on a navigation event the page index of the updated session is the
clamp of the stored index into the freshly recomputed page list followed
by the navigation intent: it stays below the page-list length; `prev`
always decrements (floored at 0 by natural subtraction); `next` does not
advance when the current page is a field page whose field has no non-null
answer; `next` advances unconditionally on non-field pages; and without a
navigation intent the clamped index is kept. -/
theorem C7_navigation (env : Env) (form : Form) (fd_fields : List Field) (sess : Session)
    (new_state : StateVals) (nav : Option String) (pages1 pages2 : List PageItem)
    (hm : compute_pages env form fd_fields (merge_values sess.values new_state) = .ok pages1)
    (hp : compute_pages env form fd_fields
      (prune_values (page_field_names fd_fields pages1)
        (merge_values sess.values new_state)) = .ok pages2) :
    (update_wizard_step env form fd_fields sess new_state nav).page =
      wizard_nav_page env fd_fields
        (prune_values (page_field_names fd_fields pages1) (merge_values sess.values new_state))
        pages2 sess.page nav ∧
    wizard_nav_page env fd_fields
        (prune_values (page_field_names fd_fields pages1) (merge_values sess.values new_state))
        pages2 sess.page nav < pages2.length ∧
    (nav = some "prev" →
      wizard_nav_page env fd_fields
          (prune_values (page_field_names fd_fields pages1) (merge_values sess.values new_state))
          pages2 sess.page nav = min sess.page (pages2.length - 1) - 1) ∧
    (nav = some "next" → ∀ fid fobj,
      pages2.getD (min sess.page (pages2.length - 1)) PageItem.terminal = PageItem.field fid →
      fd_fields.find? (fun f => f.id = fid) = some fobj →
      selected_value_for env fobj
        (prune_values (page_field_names fd_fields pages1) (merge_values sess.values new_state)) =
        none →
      wizard_nav_page env fd_fields
          (prune_values (page_field_names fd_fields pages1) (merge_values sess.values new_state))
          pages2 sess.page nav = min sess.page (pages2.length - 1)) ∧
    (nav = some "next" →
      (pages2.getD (min sess.page (pages2.length - 1)) PageItem.terminal = PageItem.core ∨
       pages2.getD (min sess.page (pages2.length - 1)) PageItem.terminal = PageItem.terminal) →
      wizard_nav_page env fd_fields
          (prune_values (page_field_names fd_fields pages1) (merge_values sess.values new_state))
          pages2 sess.page nav = min (min sess.page (pages2.length - 1) + 1) (pages2.length - 1)) ∧
    (nav = none →
      wizard_nav_page env fd_fields
          (prune_values (page_field_names fd_fields pages1) (merge_values sess.values new_state))
          pages2 sess.page nav = min sess.page (pages2.length - 1)) := by
  have hlen : 2 ≤ pages2.length := by
    rcases compute_pages_ok_inv env form fd_fields _ pages2 hp with ⟨ns, hshape, _⟩
    rw [hshape]
    simp
  refine ⟨?_, ?_, ?_, ?_, ?_, ?_⟩
  · unfold update_wizard_step
    dsimp only
    rw [hm]
    dsimp only
    rw [hp]
  · unfold wizard_nav_page
    cases nav with
    | none => dsimp only; omega
    | some nv =>
        dsimp only
        by_cases hnext : nv = "next"
        · rw [if_pos hnext]
          by_cases hadv : allow_advance env fd_fields
              (prune_values (page_field_names fd_fields pages1)
                (merge_values sess.values new_state))
              ((pages2.getD (min sess.page (pages2.length - 1)) PageItem.terminal))
          · rw [if_pos hadv]; omega
          · rw [if_neg hadv]; omega
        · rw [if_neg hnext]
          by_cases hprev : nv = "prev"
          · rw [if_pos hprev]; omega
          · rw [if_neg hprev]; omega
  · intro hnav
    subst hnav
    unfold wizard_nav_page
    simp
  · intro hnav fid fobj hcur hfind hsel
    subst hnav
    unfold wizard_nav_page
    dsimp only
    rw [if_pos rfl]
    have hadv : allow_advance env fd_fields
        (prune_values (page_field_names fd_fields pages1) (merge_values sess.values new_state))
        (pages2.getD (min sess.page (pages2.length - 1)) PageItem.terminal) = false := by
      rw [hcur]
      unfold allow_advance
      dsimp only
      rw [hfind]
      dsimp only
      rw [hsel]
      rfl
    rw [hadv]
    rfl
  · intro hnav hcur
    subst hnav
    unfold wizard_nav_page
    dsimp only
    rw [if_pos rfl]
    have hadv : allow_advance env fd_fields
        (prune_values (page_field_names fd_fields pages1) (merge_values sess.values new_state))
        (pages2.getD (min sess.page (pages2.length - 1)) PageItem.terminal) = true := by
      rcases hcur with h | h
      · rw [h]; rfl
      · rw [h]; rfl
    rw [hadv]
    rfl
  · intro hnav
    subst hnav
    unfold wizard_nav_page
    rfl

/-- Witness for C7: on the branching fixture with no answers, `next` from
the unanswered `country` page does not advance. -/
theorem C7_witness :
    (update_wizard_step fx_env fx_form [fx_country, fx_region] ⟨5, 0, []⟩ [] (some "next")).page
      = 0 := by
  have h := C7_navigation fx_env fx_form [fx_country, fx_region] ⟨5, 0, []⟩ [] (some "next")
    [PageItem.field 1, PageItem.core, PageItem.terminal]
    [PageItem.field 1, PageItem.core, PageItem.terminal] (by decide) (by decide)
  have hblock := h.2.2.2.1 rfl 1 fx_country (by decide) (by decide) (by decide)
  rw [h.1, hblock]
  decide

/-! ### C10 -/

/-- A `by_id` hit returns a field of the arena. -/
theorem by_id_mem_field {all_fields : List Field} {fid : Nat} {f : Field}
    (h : by_id all_fields fid = some f) : f ∈ all_fields := by
  have haux : ∀ (l : List Field) (acc : Option Field),
      l.foldl (fun acc g => if g.id = fid then some g else acc) acc = some f →
        acc = some f ∨ f ∈ l := by
    intro l
    induction l with
    | nil => intro acc h'; exact Or.inl h'
    | cons g t ih =>
        intro acc h'
        rw [List.foldl_cons] at h'
        rcases ih _ h' with h'' | h''
        · by_cases hg : g.id = fid
          · rw [if_pos hg] at h''
            cases h''
            exact Or.inr (List.mem_cons_self _ _)
          · rw [if_neg hg] at h''
            exact Or.inl h''
        · exact Or.inr (List.mem_cons_of_mem _ h'')
  unfold by_id at h
  rcases haux all_fields none h with h' | h'
  · cases h'
  · exact h'

/-- A field page of a completed page list lies in the traversal's field
list. -/
theorem field_mem_of_shape {ns : List Nat} {fid : Nat}
    (h : PageItem.field fid ∈ ns.map PageItem.field ++ [PageItem.core, PageItem.terminal]) :
    fid ∈ ns := by
  rcases List.mem_append.mp h with h' | h'
  · rcases List.mem_map.mp h' with ⟨x, hx, he⟩
    cases he
    exact hx
  · simp at h'

/-- C10: after a wizard update event, the surviving answer keys are
exactly the merged keys matching the field name of some integer
`FieldPage` of the page list computed during the event; in particular,
provided every field named `subject` or `description` is one of the two
core field types, the `subject` and `description` answers collected on
the Core page never survive pruning. -/
theorem C10_prune_exactness (env : Env) (form : Form) (fd_fields : List Field) (sess : Session)
    (new_state : StateVals) (nav : Option String) (pages1 pages2 : List PageItem)
    (hm : compute_pages env form fd_fields (merge_values sess.values new_state) = .ok pages1)
    (hp : compute_pages env form fd_fields
      (prune_values (page_field_names fd_fields pages1)
        (merge_values sess.values new_state)) = .ok pages2)
    (hcore : ∀ f ∈ fd_fields, (f.name = some "subject" ∨ f.name = some "description") →
      (f.ftype = "default_subject" ∨ f.ftype = "default_description")) :
    (∀ k, k ∈ svKeys (update_wizard_step env form fd_fields sess new_state nav).values ↔
      (k ∈ svKeys (merge_values sess.values new_state) ∧
        k ∈ page_field_names fd_fields pages1)) ∧
    "subject" ∉ svKeys (update_wizard_step env form fd_fields sess new_state nav).values ∧
    "description" ∉ svKeys (update_wizard_step env form fd_fields sess new_state nav).values := by
  have hv : (update_wizard_step env form fd_fields sess new_state nav).values =
      prune_values (page_field_names fd_fields pages1) (merge_values sess.values new_state) := by
    unfold update_wizard_step
    dsimp only
    rw [hm]
    dsimp only
    rw [hp]
  have hiff : ∀ k, k ∈ svKeys (update_wizard_step env form fd_fields sess new_state nav).values ↔
      (k ∈ svKeys (merge_values sess.values new_state) ∧
        k ∈ page_field_names fd_fields pages1) := by
    intro k
    rw [hv]
    exact svKeys_prune_mem _ _ k
  have hnotcore : ∀ k, (k = "subject" ∨ k = "description") →
      k ∉ svKeys (update_wizard_step env form fd_fields sess new_state nav).values := by
    intro k hk hmem
    have h2 := ((hiff k).mp hmem).2
    rcases (page_field_names_mem fd_fields pages1 k).mp h2 with ⟨fid, f, hpmem, hb, hn, _⟩
    rcases compute_pages_ok_inv env form fd_fields _ pages1 hm with ⟨ns, hshape, hchar⟩
    rw [hshape] at hpmem
    rcases hchar fid (field_mem_of_shape hpmem) with ⟨f', hb', hs', hd', _⟩
    rw [hb] at hb'
    cases hb'
    have := hcore f (by_id_mem_field hb) (by
      rcases hk with rfl | rfl
      · exact Or.inl hn
      · exact Or.inr hn)
    rcases this with h' | h'
    · exact hs' h'
    · exact hd' h'
  exact ⟨hiff, hnotcore "subject" (Or.inl rfl), hnotcore "description" (Or.inr rfl)⟩

/-- Witness for C10: a merged state carrying a stray `subject` answer on
the branching fixture loses it during the update. -/
theorem C10_witness :
    "subject" ∉ svKeys (update_wizard_step fx_env fx_form [fx_country, fx_region]
      ⟨5, 0, [("subject", fx_txt "s"), ("country", fx_sel "US")]⟩ [] none).values := by
  exact (C10_prune_exactness fx_env fx_form [fx_country, fx_region]
    ⟨5, 0, [("subject", fx_txt "s"), ("country", fx_sel "US")]⟩ [] none
    [PageItem.field 1, PageItem.core, PageItem.terminal]
    [PageItem.field 1, PageItem.core, PageItem.terminal]
    (by decide) (by decide) (by decide)).2.1

/-! ### C5 -/

/-- Every code point encodes to at least one UTF-8 byte. -/
theorem utf8EncodeChar_length_pos (c : Char) : 1 ≤ (utf8EncodeChar c).length := by
  unfold utf8EncodeChar
  dsimp only
  split_ifs <;> simp

/-- A string never has more characters than UTF-8 bytes. -/
theorem length_le_utf8Encode (s : String) : s.length ≤ (utf8Encode s).length := by
  obtain ⟨l⟩ := s
  show l.length ≤ (l.flatMap utf8EncodeChar).length
  induction l with
  | nil => simp
  | cons c t ih =>
      rw [List.flatMap_cons, List.length_append, List.length_cons]
      have := utf8EncodeChar_length_pos c
      omega

/-- A 32-bit word prints as exactly 8 hex characters. -/
theorem toHex8_length (x : Nat) : (toHex8 x).length = 8 := rfl

/-- A SHA-1 hexdigest has exactly 40 characters (160 bits). -/
theorem sha1Hex_length (msg : List Nat) : (sha1Hex msg).length = 40 := by
  unfold sha1Hex
  dsimp only
  obtain ⟨a, b, c, d, e⟩ := sha1Chunks ((sha1Pad msg).length / 64) (sha1Pad msg)
    (1732584193, 4023233417, 2562383102, 271733878, 3285377520)
  simp [String.length_append, toHex8_length]

/-- A 100-character string of 2-byte code points: 200 UTF-8 bytes but
only 100 Python characters. -/
def c5_long : String := String.mk (List.replicate 100 'é')

/-- A short raw value that already carries the proxy tag prefix: the
digest of the choice value `"US"`. -/
def c5_tag : String := "hash:" ++ sha1Hex (utf8Encode "US")

/-- An environment whose admin field list carries the `country` dropdown
with choices `US`/`FR`. -/
def c5_env : Env :=
  { formDetail := fun _ => .error "unavailable", sections := fun _ => [],
    fieldDetail := fun _ => none, adminFields := .ok [fx_country] }

set_option maxRecDepth 1000000 in
/-- C5 counterexample, two parts. (a) `proxy_value_if_needed` measures
Python characters, not UTF-8 bytes: `c5_long` has 200 UTF-8 bytes yet is
returned unchanged, with no digest tag. (b) The round trip fails for
values that themselves start with the tag prefix: `c5_tag` is 45
characters, survives `proxy_value_if_needed` unchanged, yet
`resolve_proxy_value` maps it to the choice value `"US"`. -/
theorem C5_counterexample :
    (proxy_value_if_needed c5_long = c5_long ∧ 150 < (utf8Encode c5_long).length ∧
      str_startsWith (proxy_value_if_needed c5_long) "hash:" = false) ∧
    (proxy_value_if_needed c5_tag = c5_tag ∧
      resolve_proxy_value c5_env (some "country") (proxy_value_if_needed c5_tag) = .ok "US" ∧
      c5_tag ≠ "US") := by
  refine ⟨⟨by decide, by decide, by decide⟩, ⟨by decide, by decide, by decide⟩⟩

/-- C5 (amended): `proxyEncode` returns every raw value of at most 150
characters unchanged (hence every value whose UTF-8 length is at most
150), the round trip holds for every such value that does not itself
start with the `hash:` tag, and every longer value is replaced by the
fixed prefix `hash:` followed by the deterministic 40-hex-character
(160-bit) SHA-1 digest of its UTF-8 encoding. -/
theorem C5_proxy_amended (s : String) (env : Env) (name : Option String) :
    ((utf8Encode s).length ≤ 150 → proxy_value_if_needed s = s) ∧
    (s.length ≤ 150 → proxy_value_if_needed s = s ∧
      (str_startsWith s "hash:" = false →
        resolve_proxy_value env name (proxy_value_if_needed s) = .ok s)) ∧
    (150 < s.length → proxy_value_if_needed s = "hash:" ++ sha1Hex (utf8Encode s) ∧
      (sha1Hex (utf8Encode s)).length = 40) := by
  refine ⟨?_, ?_, ?_⟩
  · intro h
    unfold proxy_value_if_needed
    rw [if_pos (le_trans (length_le_utf8Encode s) h)]
  · intro h
    have hpe : proxy_value_if_needed s = s := by
      unfold proxy_value_if_needed
      rw [if_pos h]
    refine ⟨hpe, fun hns => ?_⟩
    rw [hpe]
    unfold resolve_proxy_value
    simp [hns]
  · intro h
    refine ⟨?_, sha1Hex_length _⟩
    unfold proxy_value_if_needed
    rw [if_neg (by omega)]

/-- An environment with every collaborator down. -/
def plain_env : Env :=
  { formDetail := fun _ => .error "down", sections := fun _ => [],
    fieldDetail := fun _ => none, adminFields := .error "down" }

set_option maxRecDepth 1000000 in
/-- Witness for C5 (amended) at `"abc"` and at 151 repetitions of `a`. -/
theorem C5_witness :
    proxy_value_if_needed "abc" = "abc" ∧
    resolve_proxy_value plain_env none (proxy_value_if_needed "abc") = .ok "abc" ∧
    proxy_value_if_needed (String.mk (List.replicate 151 'a')) =
      "hash:" ++ sha1Hex (utf8Encode (String.mk (List.replicate 151 'a'))) :=
  ⟨((C5_proxy_amended "abc" plain_env none).2.1 (by decide)).1,
   ((C5_proxy_amended "abc" plain_env none).2.1 (by decide)).2 (by decide),
   ((C5_proxy_amended (String.mk (List.replicate 151 'a')) plain_env none).2.2 (by decide)).1⟩

/-! ### C6 -/

/-- C6: `resolve_proxy_value` never raises on a resolution miss. When the
admin field fetch succeeds, for every field name and every tagged value,
if the field is unknown or no current choice value's digest matches the
tag, the tag is returned unresolved as an ordinary value, not an
exception. -/
theorem C6_resolve_never_throws (env : Env) (name : Option String) (v : String)
    (fl : List Field) (hfl : env.adminFields = .ok fl)
    (hv : str_startsWith v "hash:" = true)
    (hmiss : ∀ target, fl.find? (fun f => f.name = name) = some target →
      ∀ p : String × String, p ∈ (match get_field_choices (ensure_choices env target) with
             | some c => iter_choice_items c
             | none => []) →
        sha1Hex (utf8Encode p.1) ≠ str_drop v 5) :
    resolve_proxy_value env name v = .ok v := by
  unfold resolve_proxy_value
  rw [if_neg (by simp [hv])]
  rw [hfl]
  dsimp only
  cases hfind : fl.find? (fun f => f.name = name) with
  | none => rfl
  | some target =>
      dsimp only
      generalize hit : (match get_field_choices (ensure_choices env target) with
          | some c => iter_choice_items c
          | none => []) = items
      have hmiss2 : ∀ p ∈ items, sha1Hex (utf8Encode p.1) ≠ str_drop v 5 := by
        intro p hp
        apply hmiss target hfind
        rw [hit]
        exact hp
      have hnone : items.find? (fun p => sha1Hex (utf8Encode p.1) = str_drop v 5) = none := by
        rw [List.find?_eq_none]
        intro p hp
        simp [hmiss2 p hp]
      rw [hnone]

/-- Witness for C6: an unknown field name with a dangling tag on the
branching fixture's environment. -/
theorem C6_witness :
    resolve_proxy_value fx_env (some "missing") "hash:deadbeef" = .ok "hash:deadbeef" := by
  apply C6_resolve_never_throws fx_env (some "missing") "hash:deadbeef"
    [fx_country, fx_region] rfl (by decide)
  intro target ht
  have hnone : List.find? (fun f => f.name = some "missing") [fx_country, fx_region] = none := by
    decide
  rw [hnone] at ht
  cases ht

/-! ### C8 -/

/-- With a successful admin-field fetch, proxy resolution always returns
a value. -/
theorem resolve_ok_of_fetch (env : Env) (fl : List Field) (hfl : env.adminFields = .ok fl)
    (name : Option String) (v : String) :
    ∃ r, resolve_proxy_value env name v = .ok r := by
  unfold resolve_proxy_value
  by_cases hs : str_startsWith v "hash:"
  · rw [if_neg (by simp [hs])]
    rw [hfl]
    dsimp only
    cases hfind : fl.find? (fun f => f.name = name) with
    | none => exact ⟨v, rfl⟩
    | some target =>
        dsimp only
        generalize (match get_field_choices (ensure_choices env target) with
            | some c => iter_choice_items c
            | none => []) = items
        cases hfd : items.find? (fun p => sha1Hex (utf8Encode p.1) = str_drop v 5) with
        | none => exact ⟨v, rfl⟩
        | some p => exact ⟨p.1, rfl⟩
  · exact ⟨v, by rw [if_pos (by simp [hs])]⟩

/-- With a successful admin-field fetch, the ticket block loop always
returns an accumulator. -/
theorem ticket_loop_ok (env : Env) (fl : List Field) (hfl : env.adminFields = .ok fl) :
    ∀ (vals : List (String × Entry)) (acc : TicketAcc),
      ∃ r, ticket_loop env vals acc = .ok r := by
  intro vals
  induction vals with
  | nil => intro acc; exact ⟨acc, rfl⟩
  | cons kv rest ih =>
      intro acc
      obtain ⟨bid, entry⟩ := kv
      rw [ticket_loop]
      by_cases h1 : bid = "subject"
      · rw [if_pos h1]; exact ih _
      · rw [if_neg h1]
        by_cases h2 : bid = "description"
        · rw [if_pos h2]; exact ih _
        · rw [if_neg h2]
          by_cases h3 : bid = "type" ∨ bid = "ticket_type" ∨ bid = "default_ticket_type"
          · rw [if_pos h3]; exact ih _
          · rw [if_neg h3]
            cases hval : extract_input entry with
            | none => exact ih _
            | some v =>
                dsimp only
                by_cases h4 : v = .vStr "__noop__"
                · rw [if_pos h4]; exact ih _
                · rw [if_neg h4]
                  cases v with
                  | vStr s =>
                      dsimp only
                      by_cases h5 : str_startsWith s "hash:" = true
                      · rw [if_pos h5]
                        rcases resolve_ok_of_fetch env fl hfl (some bid) s with ⟨r, hr⟩
                        rw [hr]
                        exact ih _
                      · rw [if_neg h5]
                        exact ih _
                  | vBool b => exact ih _

/-- The block loop leaves the subject, description and type accumulator
slots unchanged when the corresponding block ids never occur. -/
theorem ticket_loop_slots (env : Env) :
    ∀ (vals : List (String × Entry)) (acc r : TicketAcc),
      ticket_loop env vals acc = .ok r →
      ("subject" ∉ vals.map Prod.fst → r.subject = acc.subject) ∧
      ("description" ∉ vals.map Prod.fst → r.description = acc.description) ∧
      (("type" ∉ vals.map Prod.fst ∧ "ticket_type" ∉ vals.map Prod.fst ∧
        "default_ticket_type" ∉ vals.map Prod.fst) → r.type_field = acc.type_field) := by
  intro vals
  induction vals with
  | nil =>
      intro acc r h
      cases h
      exact ⟨fun _ => rfl, fun _ => rfl, fun _ => rfl⟩
  | cons kv rest ih =>
      intro acc r h
      obtain ⟨bid, entry⟩ := kv
      rw [ticket_loop] at h
      have hkeys : ∀ k : String, k ∉ ((bid, entry) :: rest).map Prod.fst →
          (k ≠ bid ∧ k ∉ rest.map Prod.fst) := by
        intro k hk
        constructor
        · intro hcon
          exact hk (by simp [hcon])
        · intro hcon
          exact hk (by simp [hcon])
      by_cases h1 : bid = "subject"
      · rw [if_pos h1] at h
        have := ih _ _ h
        refine ⟨?_, ?_, ?_⟩
        · intro hs
          exact absurd (show "subject" ∈ ((bid, entry) :: rest).map Prod.fst by simp [h1]) hs
        · intro hd
          rw [(this.2.1 (hkeys _ hd).2)]
        · intro ht
          rw [this.2.2 ⟨(hkeys _ ht.1).2, (hkeys _ ht.2.1).2, (hkeys _ ht.2.2).2⟩]
      · rw [if_neg h1] at h
        by_cases h2 : bid = "description"
        · rw [if_pos h2] at h
          have := ih _ _ h
          refine ⟨?_, ?_, ?_⟩
          · intro hs
            rw [this.1 (hkeys _ hs).2]
          · intro hd
            exact absurd
              (show "description" ∈ ((bid, entry) :: rest).map Prod.fst by simp [h2]) hd
          · intro ht
            rw [this.2.2 ⟨(hkeys _ ht.1).2, (hkeys _ ht.2.1).2, (hkeys _ ht.2.2).2⟩]
        · rw [if_neg h2] at h
          by_cases h3 : bid = "type" ∨ bid = "ticket_type" ∨ bid = "default_ticket_type"
          · rw [if_pos h3] at h
            have := ih _ _ h
            refine ⟨?_, ?_, ?_⟩
            · intro hs
              rw [this.1 (hkeys _ hs).2]
            · intro hd
              rw [this.2.1 (hkeys _ hd).2]
            · intro ht
              exfalso
              rcases h3 with rfl | rfl | rfl
              · exact ht.1 (by simp)
              · exact ht.2.1 (by simp)
              · exact ht.2.2 (by simp)
          · rw [if_neg h3] at h
            have hstep : ∀ acc2 : TicketAcc, ticket_loop env rest acc2 = .ok r →
                acc2.subject = acc.subject → acc2.description = acc.description →
                acc2.type_field = acc.type_field →
                ("subject" ∉ ((bid, entry) :: rest).map Prod.fst → r.subject = acc.subject) ∧
                ("description" ∉ ((bid, entry) :: rest).map Prod.fst →
                  r.description = acc.description) ∧
                (("type" ∉ ((bid, entry) :: rest).map Prod.fst ∧
                  "ticket_type" ∉ ((bid, entry) :: rest).map Prod.fst ∧
                  "default_ticket_type" ∉ ((bid, entry) :: rest).map Prod.fst) →
                  r.type_field = acc.type_field) := by
              intro acc2 h2' hs hd ht
              have := ih _ _ h2'
              refine ⟨?_, ?_, ?_⟩
              · intro hsub
                rw [this.1 (hkeys _ hsub).2, hs]
              · intro hdesc
                rw [this.2.1 (hkeys _ hdesc).2, hd]
              · intro htype
                rw [this.2.2 ⟨(hkeys _ htype.1).2, (hkeys _ htype.2.1).2,
                  (hkeys _ htype.2.2).2⟩, ht]
            cases hval : extract_input entry with
            | none =>
                rw [hval] at h
                exact hstep _ h rfl rfl rfl
            | some v =>
                rw [hval] at h
                dsimp only at h
                by_cases h4 : v = .vStr "__noop__"
                · rw [if_pos h4] at h
                  exact hstep _ h rfl rfl rfl
                · rw [if_neg h4] at h
                  cases v with
                  | vStr s =>
                      dsimp only at h
                      by_cases h5 : str_startsWith s "hash:" = true
                      · rw [if_pos h5] at h
                        cases hr : resolve_proxy_value env (some bid) s with
                        | error e => rw [hr] at h; cases h
                        | ok rr =>
                            rw [hr] at h
                            exact hstep _ h rfl rfl rfl
                      · rw [if_neg h5] at h
                        exact hstep _ h rfl rfl rfl
                  | vBool b => exact hstep _ h rfl rfl rfl

/-- Every value of the static form-name table is a nonempty string. -/
theorem table_value_ne_empty {k v : String} (h : table_get FORM_NAME_TO_TYPE k = some v) :
    v ≠ "" := by
  unfold table_get at h
  cases hf : List.find? (fun kv => kv.1 = k) FORM_NAME_TO_TYPE with
  | none => rw [hf] at h; cases h
  | some kv =>
      rw [hf] at h
      cases h
      have hmem := List.mem_of_find?_eq_some hf
      simp only [FORM_NAME_TO_TYPE, List.mem_cons, List.mem_singleton] at hmem
      rcases hmem with rfl | rfl | rfl | rfl | rfl | rfl | rfl | rfl | rfl | rfl | hmem
      · decide
      · decide
      · decide
      · decide
      · decide
      · decide
      · decide
      · decide
      · decide
      · decide
      · simp at hmem

/-- C8: with no type-selector answer among the collected blocks,
`buildTicket` infers the ticket type from the chosen form's display name
via the static table, falling back to the raw name; adding an explicit
type-selector block with a truthy answer makes that answer win over the
inference and be attached verbatim; in both cases absent subject and
description are replaced by the fixed default strings, and (with the
admin fetch succeeding) nothing raises. -/
theorem C8_ticket_type (env : Env) (cfg : Config) (values : List (String × Entry))
    (n : Nat) (remail : Option String) (fl : List Field) (detail : FormDetail) (X : String)
    (hfl : env.adminFields = .ok fl)
    (hfd : env.formDetail n = .ok detail)
    (hname : detail.name = some X) (hX : X ≠ "") (hn0 : n ≠ 0)
    (hsub : "subject" ∉ values.map Prod.fst)
    (hdesc : "description" ∉ values.map Prod.fst)
    (htype : "type" ∉ values.map Prod.fst ∧ "ticket_type" ∉ values.map Prod.fst ∧
      "default_ticket_type" ∉ values.map Prod.fst) :
    (∃ t, modal_values_to_fd_ticket env cfg values (some n) remail = .ok t ∧
      t.ttype = some (.vStr ((table_get FORM_NAME_TO_TYPE X).getD X)) ∧
      t.subject = .vStr "New ticket" ∧ t.description = .vStr "(no description)") ∧
    (∀ sel v e, (sel = "type" ∨ sel = "ticket_type" ∨ sel = "default_ticket_type") →
      extract_input e = some v → truthy v = true →
      ∃ t, modal_values_to_fd_ticket env cfg ((sel, e) :: values) (some n) remail = .ok t ∧
        t.ttype = some v ∧
        t.subject = .vStr "New ticket" ∧ t.description = .vStr "(no description)") := by
  constructor
  · rcases ticket_loop_ok env fl hfl values {} with ⟨acc, hloop⟩
    have hslots := ticket_loop_slots env values {} acc hloop
    have hsubj : acc.subject = none := hslots.1 hsub
    have hdes : acc.description = none := hslots.2.1 hdesc
    have htf : acc.type_field = none := hslots.2.2 htype
    unfold modal_values_to_fd_ticket
    rw [hloop]
    dsimp only
    rw [htf]
    have hcond : (!opt_truthy none && (n != 0)) = true := by
      simp [opt_truthy, hn0]
    rw [hcond, if_pos rfl]
    rw [show (some n).getD 0 = n from rfl, hfd]
    dsimp only
    rw [hname]
    dsimp only
    have hty : (table_get FORM_NAME_TO_TYPE X).getD X ≠ "" := by
      cases ht : table_get FORM_NAME_TO_TYPE X with
      | none => simpa using hX
      | some y => simpa using table_value_ne_empty ht
    refine ⟨_, rfl, ?_, ?_, ?_⟩
    · dsimp only
      rw [if_pos (show opt_truthy (some (Val.vStr ((table_get FORM_NAME_TO_TYPE X).getD X))) =
        true by simp [opt_truthy, truthy, hty])]
    · dsimp only
      rw [hsubj]
      rfl
    · dsimp only
      rw [hdes]
      rfl
  · intro sel v e hsel hext htr
    have hns : sel ≠ "subject" := by rcases hsel with rfl | rfl | rfl <;> decide
    have hnd : sel ≠ "description" := by rcases hsel with rfl | rfl | rfl <;> decide
    rcases ticket_loop_ok env fl hfl values ({ type_field := some v } : TicketAcc)
      with ⟨acc, hloop⟩
    have hslots := ticket_loop_slots env values { type_field := some v } acc hloop
    have hsubj : acc.subject = none := hslots.1 hsub
    have hdes : acc.description = none := hslots.2.1 hdesc
    have htf : acc.type_field = some v := hslots.2.2 htype
    have hloop2 : ticket_loop env ((sel, e) :: values) {} = .ok acc := by
      rw [ticket_loop]
      dsimp only
      rw [if_neg hns, if_neg hnd, if_pos hsel, hext]
      exact hloop
    have htruth : opt_truthy (some v) = true := by simpa [opt_truthy] using htr
    unfold modal_values_to_fd_ticket
    rw [hloop2]
    dsimp only
    rw [htf]
    have hcond : (!opt_truthy (some v) && (n != 0)) = false := by rw [htruth]; rfl
    rw [hcond, if_neg (show ¬ (false = true) by decide)]
    refine ⟨_, rfl, ?_, ?_, ?_⟩
    · dsimp only
      rw [if_pos htruth]
    · dsimp only
      rw [hsubj]
      rfl
    · dsimp only
      rw [hdes]
      rfl

/-- The environment of the C8 witness: form 44 is named "System Access
Request". -/
def c8_env : Env :=
  { formDetail := fun _ => .ok { name := some "System Access Request" },
    sections := fun _ => [], fieldDetail := fun _ => none, adminFields := .ok [] }

/-- The configuration of the C8 witness. -/
def c8_cfg : Config := { freshdeskEmail := "it@example.com", itGroupId := "12" }

/-- Witness for C8: with one custom answer and no type selector the
ticket type comes from the static table; adding an explicit type-selector
answer "Incident" overrides that inference. -/
theorem C8_witness :
    (∃ t, modal_values_to_fd_ticket c8_env c8_cfg [("color", fx_txt "red")] (some 44) none =
        .ok t ∧
      t.ttype = some (.vStr ((table_get FORM_NAME_TO_TYPE "System Access Request").getD
        "System Access Request")) ∧
      t.subject = .vStr "New ticket" ∧ t.description = .vStr "(no description)") ∧
    (∃ t, modal_values_to_fd_ticket c8_env c8_cfg
        [("type", fx_txt "Incident"), ("color", fx_txt "red")] (some 44) none = .ok t ∧
      t.ttype = some (.vStr "Incident") ∧
      t.subject = .vStr "New ticket" ∧ t.description = .vStr "(no description)") :=
  ⟨(C8_ticket_type c8_env c8_cfg [("color", fx_txt "red")] 44 none []
      { name := some "System Access Request" } "System Access Request" rfl rfl rfl
      (by decide) (by decide) (by decide) (by decide)
      ⟨by decide, by decide, by decide⟩).1,
   (C8_ticket_type c8_env c8_cfg [("color", fx_txt "red")] 44 none []
      { name := some "System Access Request" } "System Access Request" rfl rfl rfl
      (by decide) (by decide) (by decide) (by decide)
      ⟨by decide, by decide, by decide⟩).2
     "type" (.vStr "Incident") (fx_txt "Incident") (Or.inl rfl) rfl (by decide)⟩

/-! ### C9 -/

/-- Clause (1) of C9 as stated: the field id is a child of some
conditional section of the form, attached to any owning field. -/
def c9_cond1 (env : Env) (fd : FormDetail) (fid : Nat) : Prop :=
  ∃ p sec, sec ∈ env.sections p ∧ sec.id ∈ fd.sections ∧
    fid ∈ normalize_id_list sec.fields

/-- Clause (3) of C9 as stated: the field is required for customers, not
for agents, and no dependency references it. -/
def c9_cond3 (env : Env) (fd : FormDetail) (form : Form) (all_fields : List Field)
    (fid : Nat) : Prop :=
  ∃ f, by_id all_fields fid = some f ∧ f.required_for_customers = true ∧
    f.required_for_agents = false ∧ fid ∉ dependent_ids_of env fd form all_fields

/-- An unreferenced, customer-required nested container: clause (3) of
C9 says it is removed, but the code keeps fields that declare dependent
fields of their own. -/
def c9_nested : Field :=
  { id := 5, name := some "nf", ftype := "nested_field", required_for_customers := true,
    required_for_agents := false, dependent_fields := [{ id := 6, name := "child" }] }

/-- The form of the first C9 scenario. -/
def c9a_form : Form := { id := 3 }

/-- Form detail of the first C9 scenario. -/
def c9a_fd : FormDetail := { fields := [.plain 5] }

/-- Collaborator responses of the first C9 scenario. -/
def c9a_env : Env :=
  { formDetail := fun _ => .ok c9a_fd, sections := fun _ => [],
    fieldDetail := fun _ => none, adminFields := .ok [] }

/-- A top-level field that is a child of a form section attached to a
field outside the top-level order: clause (1) of C9 says it is removed,
but the code only scans sections of top-level fields. -/
def c9b_field : Field :=
  { id := 20, name := some "c", ftype := "custom_text", displayed_to_customers := true }

/-- Form detail of the second C9 scenario: section 7 belongs to the
form. -/
def c9b_fd : FormDetail := { fields := [.plain 20], sections := [7] }

/-- Collaborator responses of the second C9 scenario: section 7 hangs off
field 99, which is not in the top-level order. -/
def c9b_env : Env :=
  { formDetail := fun _ => .ok c9b_fd,
    sections := fun fid =>
      if fid = 99 then [{ id := 7, choices := some (.cdict [("x", "x")]), fields := [.plain 20] }]
      else [],
    fieldDetail := fun _ => none, adminFields := .ok [] }

/-- The form of the second C9 scenario. -/
def c9b_form : Form := { id := 4 }

/-- C9 counterexample: field 5 satisfies removal clause (3) as stated,
and field 20 satisfies removal clause (1) as stated, yet both still
receive a page, because the code additionally requires the field to have
no dependent fields of its own (3), and only scans the sections of
fields in the top-level order (1). -/
theorem C9_counterexample :
    (c9_cond3 c9a_env c9a_fd c9a_form [c9_nested] 5 ∧
      compute_pages c9a_env c9a_form [c9_nested] [] =
        .ok [PageItem.field 5, PageItem.core, PageItem.terminal]) ∧
    (c9_cond1 c9b_env c9b_fd 20 ∧
      compute_pages c9b_env c9b_form [c9b_field] [] =
        .ok [PageItem.field 20, PageItem.core, PageItem.terminal]) := by
  refine ⟨⟨⟨c9_nested, by decide, by decide, by decide, by decide⟩, by decide⟩,
    ⟨⟨99, ⟨7, some (.cdict [("x", "x")]), [.plain 20]⟩, ?_, by decide, by decide⟩, by decide⟩⟩
  show _ ∈ c9b_env.sections 99
  decide

/-- `section_orphan` captures exactly: nonempty section mappings, all
referencing sections outside the form. -/
theorem section_orphan_iff (all_fields : List Field) (fsi : List Nat) (fid : Nat) :
    section_orphan all_fields fsi fid = true ↔
      ∃ f, by_id all_fields fid = some f ∧ f.section_mappings ≠ [] ∧
        ∀ sid ∈ f.section_mappings, sid ∉ fsi := by
  unfold section_orphan
  cases hb : by_id all_fields fid with
  | none =>
      dsimp only [Option.map, Option.getD]
      constructor
      · intro h
        simp at h
      · rintro ⟨f, hf, _⟩
        cases hf
  | some f =>
      dsimp only [Option.map, Option.getD]
      by_cases he : f.section_mappings.isEmpty
      · rw [if_pos he]
        constructor
        · intro h; cases h
        · rintro ⟨g, hg, hne, _⟩
          cases hg
          exact absurd (List.isEmpty_iff.mp he) hne
      · rw [if_neg he]
        rw [List.all_eq_true]
        constructor
        · intro h
          refine ⟨f, rfl, fun hcon => he (by rw [hcon]; rfl), ?_⟩
          intro sid hsid
          simpa using h sid hsid
        · rintro ⟨g, hg, _, hall⟩
          cases hg
          intro sid hsid
          simpa using hall sid hsid

/-- `skip_unlinked_required` captures exactly: customer-required,
agent-optional, unreferenced, and declaring no dependents of its own. -/
theorem skip_unlinked_required_iff (all_fields : List Field) (deps : List Nat) (fid : Nat) :
    skip_unlinked_required all_fields deps fid = true ↔
      ∃ f, by_id all_fields fid = some f ∧ f.required_for_customers = true ∧
        f.required_for_agents = false ∧ fid ∉ deps ∧ f.dependent_fields = [] := by
  unfold skip_unlinked_required
  cases hb : by_id all_fields fid with
  | none =>
      dsimp only
      constructor
      · intro h; cases h
      · rintro ⟨f, hf, _⟩
        cases hf
  | some f =>
      dsimp only
      by_cases hdep : fid ∈ deps
      · rw [if_pos hdep]
        constructor
        · intro h; cases h
        · rintro ⟨g, hg, _, _, hnd, _⟩
          cases hg
          exact absurd hdep hnd
      · rw [if_neg hdep]
        by_cases hdf : ¬ f.dependent_fields.isEmpty
        · rw [if_pos hdf]
          constructor
          · intro h; cases h
          · rintro ⟨g, hg, _, _, _, hempty⟩
            cases hg
            exact (hdf (by rw [hempty]; rfl)).elim
        · rw [if_neg hdf]
          push_neg at hdf
          constructor
          · intro h
            simp only [Bool.and_eq_true] at h
            exact ⟨f, rfl, h.1, by simpa using h.2, hdep, List.isEmpty_iff.mp hdf⟩
          · rintro ⟨g, hg, h1, h2, _, _⟩
            cases hg
            rw [h1, h2]
            rfl

/-- C9 (amended): the top-level scan order of `compute_pages` consists of
exactly the fields of the initial order that (1) are not collected as
conditional children of the form's sections attached to fields of the
initial top-level order, (2) do not carry nonempty section mappings all
referencing sections outside the form, and (3) are not
customer-required, agent-optional fields that no dependency references
and that declare no dependent fields of their own. -/
theorem C9_scan_order (env : Env) (fd : FormDetail) (form : Form) (all_fields : List Field)
    (fid : Nat) :
    fid ∈ wizard_id_order env fd form all_fields ↔
      (fid ∈ initial_id_order fd form ∧
       fid ∉ conditional_children_of env fd form ∧
       ¬ (∃ f, by_id all_fields fid = some f ∧ f.section_mappings ≠ [] ∧
           ∀ sid ∈ f.section_mappings, sid ∉ fd.sections) ∧
       ¬ (∃ f, by_id all_fields fid = some f ∧ f.required_for_customers = true ∧
           f.required_for_agents = false ∧
           fid ∉ dependent_ids_of env fd form all_fields ∧
           f.dependent_fields = [])) := by
  unfold wizard_id_order
  rw [List.mem_filter, List.mem_filter]
  rw [← section_orphan_iff all_fields fd.sections fid]
  rw [← skip_unlinked_required_iff all_fields (dependent_ids_of env fd form all_fields) fid]
  constructor
  · rintro ⟨⟨h1, h2⟩, h3⟩
    simp only [Bool.and_eq_true] at h2
    obtain ⟨h21, h22⟩ := h2
    refine ⟨h1, by simpa using h21, ?_, ?_⟩
    · intro hcon
      rw [hcon] at h22
      simp at h22
    · intro hcon
      rw [hcon] at h3
      simp at h3
  · rintro ⟨h1, h2, h3, h4⟩
    refine ⟨⟨h1, ?_⟩, ?_⟩
    · rw [Bool.and_eq_true]
      refine ⟨by simpa using h2, ?_⟩
      rcases Bool.eq_false_or_eq_true (section_orphan all_fields fd.sections fid) with h | h
      · exact absurd h h3
      · rw [h]
        rfl
    · rcases Bool.eq_false_or_eq_true
          (skip_unlinked_required all_fields (dependent_ids_of env fd form all_fields) fid)
          with h | h
      · exact absurd h h4
      · rw [h]
        rfl

/-- Witness for C9 (amended): field 20 of the second counterexample
scenario is kept in the scan order. -/
theorem C9_witness : 20 ∈ wizard_id_order c9b_env c9b_fd c9b_form [c9b_field] := by
  apply (C9_scan_order c9b_env c9b_fd c9b_form [c9b_field] 20).mpr
  refine ⟨by decide, by decide, ?_, ?_⟩
  · rintro ⟨f, hf, hne, _⟩
    have : f = c9b_field := by
      have h' : some c9b_field = some f := by rw [← hf]; decide
      cases h'
      rfl
    subst this
    exact hne (by decide)
  · rintro ⟨f, hf, hreq, _⟩
    have : f = c9b_field := by
      have h' : some c9b_field = some f := by rw [← hf]; decide
      cases h'
      rfl
    subst this
    cases hreq


end SFT
